import Mathlib

/-!
Verification of the chiko-judge-server core against its specification.

This file shallowly embeds the server's execution-orchestration layer:
the priority task queue (a binary heap), the task scheduler / worker
pool, the TTL artifact cache, and the pipeline handlers (compile,
compile-checker, judge, run, interactive).  JavaScript numbers are
modelled as `Int`/`Nat`, JS objects as structures, fallible code as
`Except String`, and the mutable singletons as explicit state passing.
While-loops are modelled by fuel-indexed structural recursion where the
initial fuel is an exact bound derived from the loop's variant, so every
definition is executable and reduces by `rfl`/`decide`.
-/

set_option maxHeartbeats 1000000

namespace Chiko

/-! ### Priority queue (module `queue.js`, class `PriorityQueue`)

The heap stores `Task` objects; only the fields `priority`, `createdAt`
(used by `compare`) and the task id (identity of the object) are
relevant to the queue, so heap entries are modelled by `HTask`. -/

structure HTask where
  priority : Int
  createdAt : Int
  tid : Nat
deriving DecidableEq

instance : Inhabited HTask := ⟨⟨0, 0, 0⟩⟩

/-- `PriorityQueue.compare`: priority descending, then createdAt ascending. -/
def compare (a b : HTask) : Int :=
  if a.priority ≠ b.priority then b.priority - a.priority
  else a.createdAt - b.createdAt

/-- `compare a b < 0`: `a` strictly precedes `b` in heap order. -/
def hLT (a b : HTask) : Prop := compare a b < 0

/-- `compare a b ≤ 0`: `a` weakly precedes `b` in heap order. -/
def hLE (a b : HTask) : Prop := compare a b ≤ 0

instance (a b : HTask) : Decidable (hLT a b) := by unfold hLT; infer_instance

instance (a b : HTask) : Decidable (hLE a b) := by unfold hLE; infer_instance

theorem hLE_refl (a : HTask) : hLE a a := by
  simp [hLE, compare]

theorem hLE_of_hLT {a b : HTask} (h : hLT a b) : hLE a b := le_of_lt h

theorem hLE_of_not_hLT {a b : HTask} (h : ¬ hLT a b) : hLE b a := by
  unfold hLT compare at h
  unfold hLE compare
  split_ifs at h ⊢ <;> omega

theorem hLE_trans {a b c : HTask} (h1 : hLE a b) (h2 : hLE b c) : hLE a c := by
  unfold hLE compare at *
  split_ifs at h1 h2 ⊢ <;> omega

/-- `hLE` in terms of the spec's ordering words: priority descending,
ties broken by `createdAt` ascending. -/
theorem hLE_iff (a b : HTask) :
    hLE a b ↔ (b.priority < a.priority ∨
      (a.priority = b.priority ∧ a.createdAt ≤ b.createdAt)) := by
  unfold hLE compare
  split_ifs with h <;> omega

/-- The JS destructuring swap `[h[i], h[p]] = [h[p], h[i]]`. -/
def swapL (l : List HTask) (i j : Nat) : List HTask :=
  (l.set i (l.getD j default)).set j (l.getD i default)

/-- `PriorityQueue._siftUp` as a fuel-indexed loop; with fuel ≥ the start
index the fuel never runs out before the loop's own exit condition
(the index at least halves each iteration while the fuel drops by one,
and index 0 stops the loop). -/
def siftUpGo : Nat → List HTask → Nat → List HTask
  | _, l, 0 => l
  | 0, l, _ + 1 => l
  | fuel + 1, l, i + 1 =>
    if hLT (l.getD (i + 1) default) (l.getD (i / 2) default) then
      siftUpGo fuel (swapL l (i + 1) (i / 2)) (i / 2)
    else l

def siftUp (l : List HTask) (i : Nat) : List HTask := siftUpGo i l i

/-- `PriorityQueue._siftDown` as a fuel-indexed loop; the loop index
strictly increases and stays below the (constant) length, so fuel =
length is exact: if it runs out the index is past the end and the loop
would stop anyway. -/
def siftDownGo : Nat → List HTask → Nat → List HTask
  | 0, l, _ => l
  | fuel + 1, l, i =>
    let n := l.length
    let s1 := if 2 * i + 1 < n ∧ hLT (l.getD (2 * i + 1) default) (l.getD i default) then
      2 * i + 1 else i
    let s2 := if 2 * i + 2 < n ∧ hLT (l.getD (2 * i + 2) default) (l.getD s1 default) then
      2 * i + 2 else s1
    if s2 ≠ i then siftDownGo fuel (swapL l i s2) s2 else l

def siftDown (l : List HTask) (i : Nat) : List HTask := siftDownGo l.length l i

/-- `PriorityQueue.push`: append, then sift up from the last index. -/
def pushH (l : List HTask) (t : HTask) : List HTask := siftUp (l ++ [t]) l.length

/-- `PriorityQueue.pop`: return the root, move the last element to the
root and sift down. -/
def popH (l : List HTask) : Option HTask × List HTask :=
  match l with
  | [] => (none, [])
  | a :: as =>
    let top := (a :: as).getD 0 default
    let last := (a :: as).getLast (by simp)
    let rest := (a :: as).dropLast
    if rest.length > 0 then (some top, siftDown (rest.set 0 last) 0)
    else (some top, rest)

/-- Popping until empty (fuel = length is exact: each pop removes one
element, and on the empty heap pop returns the `none` sentinel). -/
def drainGo : Nat → List HTask → List HTask
  | 0, _ => []
  | fuel + 1, l =>
    match popH l with
    | (none, _) => []
    | (some t, l') => t :: drainGo fuel l'

def drainH (l : List HTask) : List HTask := drainGo l.length l

/-- Pushing a whole submission sequence into an initially empty queue. -/
def buildHeap (ts : List HTask) : List HTask := ts.foldl pushH []

example :
    drainH (buildHeap [⟨0, 0, 1⟩, ⟨0, 0, 2⟩, ⟨0, 0, 3⟩]) =
      [⟨0, 0, 1⟩, ⟨0, 0, 3⟩, ⟨0, 0, 2⟩] := by decide

example :
    drainH (buildHeap [⟨0, 0, 1⟩, ⟨5, 1, 2⟩, ⟨0, 2, 3⟩, ⟨5, 3, 4⟩]) =
      [⟨5, 1, 2⟩, ⟨5, 3, 4⟩, ⟨0, 0, 1⟩, ⟨0, 2, 3⟩] := by decide

/-! ### Heap lemmas: indexing, permutation -/

theorem gd_eq_getElem {l : List HTask} {i : Nat} (h : i < l.length) :
    l.getD i default = l[i] := List.getD_eq_getElem l default h

theorem length_swapL (l : List HTask) (i j : Nat) :
    (swapL l i j).length = l.length := by simp [swapL]

theorem swapL_getElem_form {l : List HTask} {i j : Nat} (hi : i < l.length)
    (hj : j < l.length) : swapL l i j = (l.set i l[j]).set j l[i] := by
  rw [swapL, gd_eq_getElem hi, gd_eq_getElem hj]

theorem set_getElem_self' (l : List HTask) (i : Nat) (hi : i < l.length) :
    l.set i l[i] = l := by
  apply List.ext_getElem (by simp)
  intro n h1 h2
  by_cases hn : i = n
  · subst hn; simp
  · rw [List.getElem_set_ne hn]

theorem swapL_self {l : List HTask} {i : Nat} (hi : i < l.length) :
    swapL l i i = l := by
  rw [swapL_getElem_form hi hi, List.set_set, set_getElem_self' l i hi]

theorem gd_swapL_fst {l : List HTask} {i j : Nat} (hi : i < l.length) (hj : j < l.length) :
    (swapL l i j).getD i default = l.getD j default := by
  by_cases hij : i = j
  · subst hij
    rw [swapL_self hi]
  · rw [swapL_getElem_form hi hj, gd_eq_getElem hj,
      gd_eq_getElem (by simpa using hi), List.getElem_set_ne (Ne.symm hij),
      List.getElem_set_self]

theorem gd_swapL_snd {l : List HTask} {i j : Nat} (hi : i < l.length) (hj : j < l.length) :
    (swapL l i j).getD j default = l.getD i default := by
  rw [swapL_getElem_form hi hj, gd_eq_getElem hi,
    gd_eq_getElem (by simpa using hj), List.getElem_set_self]

theorem gd_swapL_other {l : List HTask} {i j k : Nat} (hki : k ≠ i) (hkj : k ≠ j) :
    (swapL l i j).getD k default = l.getD k default := by
  by_cases hk : k < l.length
  · by_cases hi : i < l.length
    · by_cases hj : j < l.length
      · rw [swapL_getElem_form hi hj, gd_eq_getElem (by simpa using hk),
          List.getElem_set_ne (Ne.symm hkj), List.getElem_set_ne (Ne.symm hki),
          gd_eq_getElem hk]
      · rw [swapL, List.set_eq_of_length_le (by simpa using Nat.le_of_not_lt hj),
          gd_eq_getElem (by simpa using hk), List.getElem_set_ne (Ne.symm hki),
          gd_eq_getElem hk]
    · rw [swapL, List.set_eq_of_length_le (Nat.le_of_not_lt hi)]
      by_cases hj : j < l.length
      · rw [gd_eq_getElem (by simpa using hk), List.getElem_set_ne (Ne.symm hkj),
          gd_eq_getElem hk]
      · rw [List.set_eq_of_length_le (Nat.le_of_not_lt hj)]
  · rw [List.getD_eq_default _ _ (by simpa [length_swapL] using Nat.le_of_not_lt hk),
      List.getD_eq_default _ _ (Nat.le_of_not_lt hk)]

theorem swapL_perm {l : List HTask} {i j : Nat} (hi : i < l.length) (hj : j < l.length) :
    (swapL l i j).Perm l := by
  by_cases hij : i = j
  · rw [hij, swapL_self hj]
  · rw [swapL_getElem_form hi hj, List.perm_iff_count]
    intro b
    have hc2 := List.count_set l[i] b (l.set i l[j]) j (by simpa using hj)
    have hc1 := List.count_set l[j] b l i hi
    have hmi : 1 ≤ List.count l[i] l := List.one_le_count_iff.mpr (List.getElem_mem hi)
    have hmj : 1 ≤ List.count l[j] l := List.one_le_count_iff.mpr (List.getElem_mem hj)
    have e := List.getElem_set_ne (l := l) (i := i) (j := j) hij (a := l[j])
      (by simpa using hj)
    rw [e] at hc2
    by_cases h1 : l[i] = b <;> by_cases h2 : l[j] = b
    · simp only [h1, h2] at hc1 hc2 hmi ⊢
      simp at hc1 hc2
      omega
    · simp only [h1] at hc1 hc2 hmi ⊢
      simp [h2] at hc1 hc2
      omega
    · simp only [h2] at hc1 hc2 hmj ⊢
      simp [h1] at hc1 hc2
      omega
    · simp [h1, h2] at hc1 hc2
      omega

theorem siftUpGo_perm : ∀ (fuel : Nat) (l : List HTask) (i : Nat), i < l.length →
    (siftUpGo fuel l i).Perm l := by
  intro fuel
  induction fuel with
  | zero =>
    intro l i _
    cases i <;> simp [siftUpGo]
  | succ f ih =>
    intro l i hi
    cases i with
    | zero => simp [siftUpGo]
    | succ n =>
      rw [siftUpGo]
      split
      · have hn2 : n / 2 < l.length := by omega
        exact (ih _ _ (by simpa [length_swapL] using hn2)).trans (swapL_perm hi hn2)
      · exact List.Perm.refl l

theorem siftDownGo_perm : ∀ (fuel : Nat) (l : List HTask) (i : Nat),
    (siftDownGo fuel l i).Perm l := by
  intro fuel
  induction fuel with
  | zero => intro l i; simp [siftDownGo]
  | succ f ih =>
    intro l i
    rw [siftDownGo]
    split_ifs with h1 h2 h3 h4 h5 h6 <;>
      first
        | exact List.Perm.refl _
        | exact (ih _ _).trans (swapL_perm (by omega) (by omega))

theorem siftUp_perm {l : List HTask} {i : Nat} (hi : i < l.length) :
    (siftUp l i).Perm l := siftUpGo_perm i l i hi

theorem siftDown_perm (l : List HTask) (i : Nat) :
    (siftDown l i).Perm l := siftDownGo_perm _ l i

theorem pushH_perm (l : List HTask) (t : HTask) : (pushH l t).Perm (t :: l) := by
  have h1 : (siftUp (l ++ [t]) l.length).Perm (l ++ [t]) := siftUp_perm (by simp)
  exact h1.trans (List.perm_append_singleton t l)

theorem popH_spec {l : List HTask} (h : l ≠ []) :
    (popH l).1 = some (l.getD 0 default) ∧
      ((l.getD 0 default) :: (popH l).2).Perm l := by
  match l with
  | [a] => exact ⟨rfl, by simp [popH]⟩
  | a :: b :: bs =>
    have hpop : popH (a :: b :: bs) =
        (some a, siftDown (((b :: bs).getLast (by simp)) :: (b :: bs).dropLast) 0) := by
      simp [popH]
    rw [hpop]
    refine ⟨by simp, ?_⟩
    have h1 := siftDown_perm (((b :: bs).getLast (by simp)) :: (b :: bs).dropLast) 0
    have h2 : (((b :: bs).getLast (by simp)) :: (b :: bs).dropLast).Perm (b :: bs) := by
      have h3 := List.perm_append_singleton ((b :: bs).getLast (by simp)) (b :: bs).dropLast
      have h4 := List.dropLast_append_getLast (l := b :: bs) (by simp)
      refine h3.symm.trans ?_
      rw [h4]
    simpa using List.Perm.cons a (h1.trans h2)

theorem popH_length {l : List HTask} (h : l ≠ []) :
    (popH l).2.length + 1 = l.length := by
  have := (popH_spec h).2.length_eq
  simpa using this

/-! ### Heap lemmas: the heap invariant -/

/-- The binary min-heap invariant w.r.t. `compare`: every non-root node is
not strictly smaller than its parent. -/
def heapProp (l : List HTask) : Prop :=
  ∀ j, 0 < j → j < l.length →
    hLE (l.getD ((j - 1) / 2) default) (l.getD j default)

theorem siftUpGo_heap : ∀ (fuel : Nat) (l : List HTask) (i : Nat), i ≤ fuel →
    i < l.length →
    (∀ j, 0 < j → j < l.length → j ≠ i →
      hLE (l.getD ((j - 1) / 2) default) (l.getD j default)) →
    (∀ j, j < l.length → 0 < i → (j - 1) / 2 = i →
      hLE (l.getD ((i - 1) / 2) default) (l.getD j default)) →
    heapProp (siftUpGo fuel l i) := by
  intro fuel
  induction fuel with
  | zero =>
    intro l i hif hi H1 H2
    have hi0 : i = 0 := Nat.le_zero.mp hif
    subst hi0
    simp only [siftUpGo]
    intro j hj hjl
    exact H1 j hj hjl (by omega)
  | succ f ih =>
    intro l i hif hi H1 H2
    cases i with
    | zero =>
      simp only [siftUpGo]
      intro j hj hjl
      exact H1 j hj hjl (by omega)
    | succ n =>
      rw [siftUpGo]
      by_cases hcond : hLT (l.getD (n + 1) default) (l.getD (n / 2) default)
      · rw [if_pos hcond]
        have hp : n / 2 < l.length := by omega
        apply ih (swapL l (n + 1) (n / 2)) (n / 2) (by omega)
          (by simpa [length_swapL] using hp)
        · -- the heap pairs hold away from the new hole `n / 2`
          intro j hj hjl hne
          rw [length_swapL] at hjl
          by_cases hji : j = n + 1
          · subst hji
            have hpar : (n + 1 - 1) / 2 = n / 2 := by omega
            rw [hpar, gd_swapL_snd hi hp, gd_swapL_fst hi hp]
            exact hLE_of_hLT hcond
          · by_cases hpj : (j - 1) / 2 = n + 1
            · rw [hpj, gd_swapL_fst hi hp, gd_swapL_other hji (by omega)]
              have := H2 j hjl (by omega) hpj
              simpa using this
            · by_cases hpj2 : (j - 1) / 2 = n / 2
              · rw [hpj2, gd_swapL_snd hi hp, gd_swapL_other hji hne]
                refine hLE_trans (hLE_of_hLT hcond) ?_
                have := H1 j hj hjl hji
                rwa [hpj2] at this
              · rw [gd_swapL_other hpj hpj2, gd_swapL_other hji hne]
                exact H1 j hj hjl hji
        · -- the grandparent of the new hole dominates the hole's children
          intro j hjl hp0 hpar
          rw [length_swapL] at hjl
          have hgne1 : (n / 2 - 1) / 2 ≠ n + 1 := by omega
          have hgne2 : (n / 2 - 1) / 2 ≠ n / 2 := by omega
          rw [gd_swapL_other hgne1 hgne2]
          by_cases hji : j = n + 1
          · subst hji
            rw [gd_swapL_fst hi hp]
            exact H1 (n / 2) hp0 hp (by omega)
          · have hjne_p : j ≠ n / 2 := by omega
            rw [gd_swapL_other hji hjne_p]
            have h1p := H1 (n / 2) hp0 hp (by omega)
            have h1j := H1 j (by omega) hjl hji
            rw [hpar] at h1j
            exact hLE_trans h1p h1j
      · rw [if_neg hcond]
        intro j hj hjl
        by_cases hji : j = n + 1
        · subst hji
          have hpar : (n + 1 - 1) / 2 = n / 2 := by omega
          rw [hpar]
          exact hLE_of_not_hLT hcond
        · exact H1 j hj hjl hji

theorem hLT_trans {a b c : HTask} (h1 : hLT a b) (h2 : hLT b c) : hLT a c := by
  unfold hLT compare at *
  split_ifs at h1 h2 ⊢ <;> omega

/-- One swap-and-descend step of `_siftDown` preserves the "heap except at
the hole" invariant; stated against the recursive call so the main proof
can case on the two comparisons of the loop body. -/
theorem siftDownGo_heap_step (f : Nat)
    (ih : ∀ (l : List HTask) (i : Nat), l.length ≤ f + i →
      (∀ j, 0 < j → j < l.length → (j - 1) / 2 ≠ i →
        hLE (l.getD ((j - 1) / 2) default) (l.getD j default)) →
      (∀ j, j < l.length → 0 < i → (j - 1) / 2 = i →
        hLE (l.getD ((i - 1) / 2) default) (l.getD j default)) →
      heapProp (siftDownGo f l i))
    (l : List HTask) (i s : Nat)
    (hs_child : s = 2 * i + 1 ∨ s = 2 * i + 2) (hsn : s < l.length)
    (hlen : l.length ≤ f + 1 + i)
    (hmin_i : hLT (l.getD s default) (l.getD i default))
    (hmin_o : ∀ o, (o = 2 * i + 1 ∨ o = 2 * i + 2) → o ≠ s → o < l.length →
      hLE (l.getD s default) (l.getD o default))
    (H1 : ∀ j, 0 < j → j < l.length → (j - 1) / 2 ≠ i →
      hLE (l.getD ((j - 1) / 2) default) (l.getD j default))
    (H2 : ∀ j, j < l.length → 0 < i → (j - 1) / 2 = i →
      hLE (l.getD ((i - 1) / 2) default) (l.getD j default)) :
    heapProp (siftDownGo f (swapL l i s) s) := by
  have his : i < s := by omega
  have hi : i < l.length := by omega
  have hpar_s : (s - 1) / 2 = i := by omega
  apply ih
  · rw [length_swapL]; omega
  · intro j hj hjl hne
    rw [length_swapL] at hjl
    by_cases hji : j = i
    · subst hji
      rw [gd_swapL_other (show (j - 1) / 2 ≠ j by omega) (show (j - 1) / 2 ≠ s by omega),
        gd_swapL_fst hi hsn]
      exact H2 s hsn hj hpar_s
    · by_cases hjs : j = s
      · subst hjs
        rw [hpar_s, gd_swapL_fst hi hsn, gd_swapL_snd hi hsn]
        exact hLE_of_hLT hmin_i
      · by_cases hpj : (j - 1) / 2 = i
        · have hjchild : j = 2 * i + 1 ∨ j = 2 * i + 2 := by omega
          rw [hpj, gd_swapL_fst hi hsn, gd_swapL_other hji hjs]
          exact hmin_o j hjchild hjs hjl
        · rw [gd_swapL_other hpj hne, gd_swapL_other hji hjs]
          exact H1 j hj hjl hpj
  · intro j hjl hs0 hpj
    rw [length_swapL] at hjl
    have hj_gt : s < j := by omega
    rw [hpar_s, gd_swapL_fst hi hsn,
      gd_swapL_other (show j ≠ i by omega) (show j ≠ s by omega)]
    have h1j := H1 j (by omega) hjl (by omega)
    rwa [hpj] at h1j

theorem siftDownGo_heap : ∀ (fuel : Nat) (l : List HTask) (i : Nat),
    l.length ≤ fuel + i →
    (∀ j, 0 < j → j < l.length → (j - 1) / 2 ≠ i →
      hLE (l.getD ((j - 1) / 2) default) (l.getD j default)) →
    (∀ j, j < l.length → 0 < i → (j - 1) / 2 = i →
      hLE (l.getD ((i - 1) / 2) default) (l.getD j default)) →
    heapProp (siftDownGo fuel l i) := by
  intro fuel
  induction fuel with
  | zero =>
    intro l i hlen H1 H2
    simp only [siftDownGo]
    intro j hj hjl
    exact H1 j hj hjl (by omega)
  | succ f ih =>
    intro l i hlen H1 H2
    rw [siftDownGo]
    by_cases h1 : 2 * i + 1 < l.length ∧
        hLT (l.getD (2 * i + 1) default) (l.getD i default)
    · rw [if_pos h1]
      by_cases h2 : 2 * i + 2 < l.length ∧
          hLT (l.getD (2 * i + 2) default) (l.getD (2 * i + 1) default)
      · rw [if_pos h2, if_pos (show 2 * i + 2 ≠ i by omega)]
        apply siftDownGo_heap_step f ih l i (2 * i + 2) (Or.inr rfl) h2.1 hlen
          (hLT_trans h2.2 h1.2) ?_ H1 H2
        intro o ho hos hol
        have ho1 : o = 2 * i + 1 := by omega
        subst ho1
        exact hLE_of_hLT h2.2
      · rw [if_neg h2, if_pos (show 2 * i + 1 ≠ i by omega)]
        apply siftDownGo_heap_step f ih l i (2 * i + 1) (Or.inl rfl) h1.1 hlen
          h1.2 ?_ H1 H2
        intro o ho hos hol
        have ho2 : o = 2 * i + 2 := by omega
        subst ho2
        exact hLE_of_not_hLT (fun hlt => h2 ⟨hol, hlt⟩)
    · rw [if_neg h1]
      by_cases h3 : 2 * i + 2 < l.length ∧
          hLT (l.getD (2 * i + 2) default) (l.getD i default)
      · rw [if_pos h3, if_pos (show 2 * i + 2 ≠ i by omega)]
        apply siftDownGo_heap_step f ih l i (2 * i + 2) (Or.inr rfl) h3.1 hlen
          h3.2 ?_ H1 H2
        intro o ho hos hol
        have ho1 : o = 2 * i + 1 := by omega
        subst ho1
        exact hLE_trans (hLE_of_hLT h3.2)
          (hLE_of_not_hLT (fun hlt => h1 ⟨hol, hlt⟩))
      · rw [if_neg h3, if_neg (show ¬ (i ≠ i) by omega)]
        intro j hj hjl
        by_cases hpj : (j - 1) / 2 = i
        · have hjchild : j = 2 * i + 1 ∨ j = 2 * i + 2 := by omega
          rw [hpj]
          rcases hjchild with hc | hc <;> subst hc
          · exact hLE_of_not_hLT (fun hlt => h1 ⟨hjl, hlt⟩)
          · exact hLE_of_not_hLT (fun hlt => h3 ⟨hjl, hlt⟩)
        · exact H1 j hj hjl hpj

theorem gd_append_left {l : List HTask} (t : HTask) {k : Nat} (hk : k < l.length) :
    (l ++ [t]).getD k default = l.getD k default := by
  rw [gd_eq_getElem (by simp only [List.length_append, List.length_cons,
      List.length_nil]; omega), gd_eq_getElem hk, List.getElem_append_left hk]

theorem pushH_heap {l : List HTask} (h : heapProp l) (t : HTask) :
    heapProp (pushH l t) := by
  apply siftUpGo_heap l.length (l ++ [t]) l.length (le_refl _) (by simp)
  · intro j hj hjl hne
    have hjlen : j < l.length := by simp at hjl; omega
    have hparlen : (j - 1) / 2 < l.length := by omega
    rw [gd_append_left t hparlen, gd_append_left t hjlen]
    exact h j hj hjlen
  · intro j hjl _ hpar
    simp at hjl
    omega

theorem gd_dropLast {l : List HTask} {k : Nat} (hk : k + 1 < l.length) :
    (l.dropLast).getD k default = l.getD k default := by
  rw [gd_eq_getElem (by simp; omega), gd_eq_getElem (by omega),
    List.getElem_dropLast]

theorem popH_heap {l : List HTask} (h : heapProp l) : heapProp (popH l).2 := by
  match l with
  | [] => intro j hj hjl; simp [popH] at hjl
  | [a] => intro j hj hjl; simp [popH] at hjl
  | a :: b :: bs =>
    have hpop : popH (a :: b :: bs) =
        (some a, siftDown (((b :: bs).getLast (by simp)) :: (b :: bs).dropLast) 0) := by
      simp [popH]
    rw [hpop]
    apply siftDownGo_heap _ _ 0 (le_refl _)
    · intro j hj hjl hpar
      have hj2 : 2 ≤ j := by omega
      have hpar1 : 1 ≤ (j - 1) / 2 := by omega
      have hparj : (j - 1) / 2 < j := by omega
      simp only [List.length_cons] at hjl
      -- positions ≥ 1 of the new root list coincide with the original list
      have hpos : ∀ k, 1 ≤ k → k < (b :: bs).dropLast.length + 1 →
          ((((b :: bs).getLast (by simp)) :: (b :: bs).dropLast).getD k default)
            = (a :: b :: bs).getD k default := by
        intro k hk1 hk2
        obtain ⟨m, rfl⟩ : ∃ m, k = m + 1 := ⟨k - 1, by omega⟩
        rw [List.getD_cons_succ, List.getD_cons_succ]
        have hk3 : m + 1 < (b :: bs).length := by
          have hdl : (b :: bs).dropLast.length = (b :: bs).length - 1 :=
            List.length_dropLast _
          simp only [List.length_cons] at hk2 hdl ⊢
          omega
        rw [gd_dropLast hk3]
      rw [hpos _ hpar1 (by omega), hpos _ (by omega) (by omega)]
      apply h j hj
      have hdl : (b :: bs).dropLast.length = (b :: bs).length - 1 :=
        List.length_dropLast _
      simp only [List.length_cons] at hdl ⊢
      omega
    · intro j hjl h0 _
      omega

theorem heap_root_min {l : List HTask} (h : heapProp l) :
    ∀ j, j < l.length → hLE (l.getD 0 default) (l.getD j default) := by
  intro j
  induction j using Nat.strong_induction_on with
  | _ j ih =>
    intro hj
    rcases Nat.eq_zero_or_pos j with h0 | hpos
    · subst h0; exact hLE_refl _
    · exact hLE_trans (ih ((j - 1) / 2) (by omega) (by omega)) (h j hpos hj)

theorem drainGo_sorted_perm : ∀ (fuel : Nat) (l : List HTask), l.length = fuel →
    heapProp l →
    (drainGo fuel l).Pairwise hLE ∧ (drainGo fuel l).Perm l := by
  intro fuel
  induction fuel with
  | zero =>
    intro l hlen _
    have h0 : l = [] := List.eq_nil_of_length_eq_zero hlen
    subst h0
    simp [drainGo]
  | succ f ih =>
    intro l hlen hheap
    have hne : l ≠ [] := by intro h0; subst h0; simp at hlen
    obtain ⟨h1, h2⟩ := popH_spec hne
    have hp : popH l = (some (l.getD 0 default), (popH l).2) := by
      rw [← h1]
    have hlen' : (popH l).2.length = f := by
      have := popH_length hne
      omega
    have hheap' : heapProp (popH l).2 := popH_heap hheap
    obtain ⟨hsort, hperm⟩ := ih (popH l).2 hlen' hheap'
    rw [drainGo, hp]
    constructor
    · refine List.Pairwise.cons ?_ hsort
      intro x hx
      have hx2 : x ∈ l := h2.mem_iff.mp (List.mem_cons_of_mem _ (hperm.mem_iff.mp hx))
      obtain ⟨k, hk, hkx⟩ := List.mem_iff_getElem.mp hx2
      rw [← hkx, ← gd_eq_getElem hk]
      exact heap_root_min hheap k hk
    · exact (List.Perm.cons _ hperm).trans h2

theorem buildHeap_perm_aux : ∀ (ts : List HTask) (l : List HTask),
    (ts.foldl pushH l).Perm (l ++ ts) := by
  intro ts
  induction ts with
  | nil => intro l; simp
  | cons t ts ih =>
    intro l
    have h1 : (ts.foldl pushH (pushH l t)).Perm (pushH l t ++ ts) := ih (pushH l t)
    refine (List.foldl_cons _ _ ▸ h1).trans ?_
    refine (List.Perm.append_right ts (pushH_perm l t)).trans ?_
    exact List.perm_middle.symm

theorem buildHeap_heap_aux : ∀ (ts : List HTask) (l : List HTask), heapProp l →
    heapProp (ts.foldl pushH l) := by
  intro ts
  induction ts with
  | nil => intro l h; simpa using h
  | cons t ts ih =>
    intro l h
    exact List.foldl_cons _ _ ▸ ih (pushH l t) (pushH_heap h t)

theorem buildHeap_perm (ts : List HTask) : (buildHeap ts).Perm ts := by
  simpa using buildHeap_perm_aux ts []

theorem buildHeap_heap (ts : List HTask) : heapProp (buildHeap ts) :=
  buildHeap_heap_aux ts [] (by intro j hj hjl; simp at hjl)

theorem not_hLE_of_hLT {a b : HTask} (h : hLT a b) : ¬ hLE b a := by
  unfold hLT compare at h
  unfold hLE compare
  split_ifs at h ⊢ <;> omega

theorem hLT_iff (a b : HTask) :
    hLT a b ↔ (b.priority < a.priority ∨
      (a.priority = b.priority ∧ a.createdAt < b.createdAt)) := by
  unfold hLT compare
  split_ifs with h <;> omega

theorem eq_of_perm_of_sorted_strict : ∀ (l₁ l₂ : List HTask), l₁.Perm l₂ →
    l₁.Pairwise hLE → l₂.Pairwise hLT → l₁ = l₂ := by
  intro l₁
  induction l₁ with
  | nil =>
    intro l₂ hp _ _
    exact (hp.symm.eq_nil).symm
  | cons d ds ih =>
    intro l₂ hp hs₁ hs₂
    cases l₂ with
    | nil => simpa using hp.eq_nil
    | cons t ts' =>
      have hdt : d = t := by
        by_contra hne
        have hd_mem : d ∈ t :: ts' := hp.mem_iff.mp (List.mem_cons_self _ _)
        have ht_mem : t ∈ d :: ds := hp.mem_iff.mpr (List.mem_cons_self _ _)
        have hd_ts : d ∈ ts' := by
          rcases List.mem_cons.mp hd_mem with h0 | h0
          · exact absurd h0 hne
          · exact h0
        have ht_ds : t ∈ ds := by
          rcases List.mem_cons.mp ht_mem with h0 | h0
          · exact absurd h0.symm hne
          · exact h0
        have h1 : hLE d t := (List.pairwise_cons.mp hs₁).1 t ht_ds
        have h2 : hLT t d := (List.pairwise_cons.mp hs₂).1 d hd_ts
        exact not_hLE_of_hLT h2 h1
      subst hdt
      have hptail : ds.Perm ts' := hp.cons_inv
      exact congrArg (d :: ·)
        (ih ts' hptail (List.pairwise_cons.mp hs₁).2 (List.pairwise_cons.mp hs₂).2)

/-- C5 counterexample: three tasks with equal priority and equal
`createdAt` (same-millisecond submissions), pushed in id-order 1, 2, 3,
drain as 1, 3, 2 — not in submission order, so the FIFO tie-break does
not extend to tasks whose `createdAt` timestamps coincide. -/
theorem C5_counterexample :
    drainH (buildHeap [⟨0, 0, 1⟩, ⟨0, 0, 2⟩, ⟨0, 0, 3⟩]) =
        [⟨0, 0, 1⟩, ⟨0, 0, 3⟩, ⟨0, 0, 2⟩] ∧
      drainH (buildHeap [⟨0, 0, 1⟩, ⟨0, 0, 2⟩, ⟨0, 0, 3⟩]) ≠
        [⟨0, 0, 1⟩, ⟨0, 0, 2⟩, ⟨0, 0, 3⟩] := by decide

/-- C5 (amended): draining a heap built from any submission sequence
yields a permutation of the submissions ordered by priority descending
with ties broken by `createdAt` ascending; in particular, when the
submission sequence itself is strictly decreasing in that order (e.g.
equal priorities with strictly increasing `createdAt` timestamps —
distinct milliseconds), tasks come out exactly in submission order.
Tasks with identical priority and `createdAt` may come out in any
order. -/
theorem C5_heap_order (ts : List HTask) :
    (drainH (buildHeap ts)).Perm ts ∧
    (drainH (buildHeap ts)).Pairwise (fun a b =>
      b.priority < a.priority ∨
        (a.priority = b.priority ∧ a.createdAt ≤ b.createdAt)) ∧
    (ts.Pairwise (fun a b =>
        b.priority < a.priority ∨
          (a.priority = b.priority ∧ a.createdAt < b.createdAt)) →
      drainH (buildHeap ts) = ts) := by
  obtain ⟨hs, hp⟩ := drainGo_sorted_perm (buildHeap ts).length (buildHeap ts) rfl
    (buildHeap_heap ts)
  have hperm : (drainH (buildHeap ts)).Perm ts := hp.trans (buildHeap_perm ts)
  refine ⟨hperm, hs.imp (fun h => (hLE_iff _ _).mp h), fun hstrict => ?_⟩
  exact eq_of_perm_of_sorted_strict _ _ hperm hs
    (hstrict.imp (fun h => (hLT_iff _ _).mpr h))

/-- Witness for C5 (amended): three equal-priority tasks with strictly
increasing `createdAt` drain exactly in submission order. -/
theorem C5_heap_order_witness :
    drainH (buildHeap [⟨0, 0, 1⟩, ⟨0, 1, 2⟩, ⟨0, 2, 3⟩]) =
      [⟨0, 0, 1⟩, ⟨0, 1, 2⟩, ⟨0, 2, 3⟩] :=
  (C5_heap_order [⟨0, 0, 1⟩, ⟨0, 1, 2⟩, ⟨0, 2, 3⟩]).2.2 (by decide)

/-! ### Association lists

JS `Map` objects (`this.tasks`, `this.runningTasks`, the cache index)
are modelled as association lists with unique keys; `updA` updates every
entry with the given key (with unique keys this is exactly `Map.set` of
an existing key) and `removeA` removes them (`Map.delete`). -/

def lookupA {κ β : Type} [DecidableEq κ] : List (κ × β) → κ → Option β
  | [], _ => none
  | p :: l, k => if p.1 = k then some p.2 else lookupA l k

def updA {κ β : Type} [DecidableEq κ] (l : List (κ × β)) (k : κ) (f : β → β) :
    List (κ × β) :=
  l.map (fun p => if p.1 = k then (p.1, f p.2) else p)

def removeA {κ β : Type} [DecidableEq κ] (l : List (κ × β)) (k : κ) :
    List (κ × β) :=
  l.filter (fun p => decide (p.1 ≠ k))

/-! ### Task scheduler (module `queue.js`, classes `Task` and `TaskQueue`)

`δ` is the task-data type and `ρ` the handler-result type; the handlers
are asynchronous JS functions modelled as `δ → Except String ρ` (a throw
becomes `Except.error` with the error message). -/

namespace TaskStatus

def PENDING : String := "pending"

def RUNNING : String := "running"

def COMPLETED : String := "completed"

def FAILED : String := "failed"

end TaskStatus

structure Task (δ ρ : Type) where
  tid : Nat
  type : String
  data : δ
  priority : Int
  status : String
  result : Option ρ
  error : Option String
  createdAt : Int
  startedAt : Option Int
  completedAt : Option Int

/-- The `Task` constructor. -/
def newTask {δ ρ : Type} (tid : Nat) (ty : String) (d : δ) (priority : Int)
    (now : Int) : Task δ ρ :=
  ⟨tid, ty, d, priority, TaskStatus.PENDING, none, none, now, none, none⟩

/-- `TaskQueue` state: the heap of queued tasks, the `tasks` registry,
the `runningTasks` map (keys only; values alias `tasks`), the worker
counter and cap.  `nextId` models `uuidv4` freshness of task ids. -/
structure TaskQueue (δ ρ : Type) where
  heap : List HTask
  tasks : List (Nat × Task δ ρ)
  runningTasks : List Nat
  activeWorkers : Nat
  concurrency : Nat
  nextId : Nat

/-- `TaskQueue.normalizeConcurrency`: `parseInt`, `NaN` (modelled as
`none`) or anything `< 1` normalizes to 1. -/
def normalizeConcurrency (value : Option Int) : Nat :=
  match value with
  | none => 1
  | some p => if p < 1 then 1 else p.toNat

def initQueue {δ ρ : Type} (concurrency : Option Int) : TaskQueue δ ρ :=
  ⟨[], [], [], 0, normalizeConcurrency concurrency, 0⟩

/-- `TaskQueue.process`: the dispatch loop.  Each iteration pops one
task, so fuel = heap length is exact (at fuel 0 the heap is empty and
the loop would stop anyway). -/
def processGo {δ ρ : Type} : Nat → Int → TaskQueue δ ρ → TaskQueue δ ρ
  | 0, _, s => s
  | fuel + 1, now, s =>
    if s.activeWorkers < s.concurrency ∧ s.heap.isEmpty = false then
      match popH s.heap with
      | (none, _) => s
      | (some ht, h') =>
        processGo fuel now
          { s with
            heap := h',
            activeWorkers := s.activeWorkers + 1,
            runningTasks := ht.tid :: s.runningTasks,
            tasks := updA s.tasks ht.tid (fun t =>
              { t with status := TaskStatus.RUNNING, startedAt := some now }) }
    else s

def process {δ ρ : Type} (now : Int) (s : TaskQueue δ ρ) : TaskQueue δ ρ :=
  processGo s.heap.length now s

/-- `TaskQueue.addTask`: create a pending task, register it, enqueue it,
then trigger processing. -/
def addTask {δ ρ : Type} (now : Int) (ty : String) (d : δ) (priority : Int)
    (s : TaskQueue δ ρ) : TaskQueue δ ρ :=
  process now
    { s with
      tasks := (s.nextId, newTask s.nextId ty d priority now) :: s.tasks,
      heap := pushH s.heap ⟨priority, now, s.nextId⟩,
      nextId := s.nextId + 1 }

/-- The terminal write of `TaskQueue.executeTask`: completed-with-result
on normal return, failed-with-message on a caught error. -/
def applyOutcome {δ ρ : Type} (t : Task δ ρ) (o : Except String ρ) (now : Int) :
    Task δ ρ :=
  match o with
  | .ok r =>
    { t with
      status := TaskStatus.COMPLETED, result := some r, completedAt := some now }
  | .error e =>
    { t with
      status := TaskStatus.FAILED, error := some e, completedAt := some now }

/-- `TaskQueue.executeTask`: missing handler throws, otherwise the
handler's outcome is written to the task. -/
def executeTask {δ ρ : Type} (handler? : Option (δ → Except String ρ))
    (t : Task δ ρ) (now : Int) : Task δ ρ :=
  match handler? with
  | none => applyOutcome t
      (.error ("No handler registered for task type: " ++ t.type)) now
  | some h => applyOutcome t (h t.data) now

def removeL (l : List Nat) (k : Nat) : List Nat :=
  l.filter (fun x => decide (x ≠ k))

/-- Worker completion: the terminal write of `executeTask` followed by
the `.finally` block of `process` (decrement `activeWorkers` with a
floor of 0, drop the task from `runningTasks`, re-run `process`). -/
def finishTask {δ ρ : Type} (now : Int) (tid : Nat) (o : Except String ρ)
    (s : TaskQueue δ ρ) : TaskQueue δ ρ :=
  process now
    { s with
      tasks := updA s.tasks tid (fun t => applyOutcome t o now),
      activeWorkers := s.activeWorkers - 1,
      runningTasks := removeL s.runningTasks tid }

/-- `TaskQueue.setConcurrency`. -/
def setConcurrency {δ ρ : Type} (now : Int) (value : Option Int)
    (s : TaskQueue δ ρ) : TaskQueue δ ρ :=
  let next := normalizeConcurrency value
  if next = s.concurrency then s
  else process now { s with concurrency := next }

/-- One deletion of the retention sweep (`TaskQueue.cleanup`), which only
ever removes tasks whose status is completed or failed; the reachability
relation guards it accordingly. -/
def cleanupTask {δ ρ : Type} (tid : Nat) (s : TaskQueue δ ρ) : TaskQueue δ ρ :=
  { s with tasks := removeA s.tasks tid }

/-- Reachable scheduler states under addTask, worker completion (with an
arbitrary handler outcome), setConcurrency and retention cleanup. -/
inductive Reach {δ ρ : Type} : TaskQueue δ ρ → Prop
  | init (v : Option Int) : Reach (initQueue v)
  | add {s : TaskQueue δ ρ} (now : Int) (ty : String) (d : δ) (p : Int) :
      Reach s → Reach (addTask now ty d p s)
  | finish {s : TaskQueue δ ρ} (now : Int) (tid : Nat) (o : Except String ρ) :
      Reach s → tid ∈ s.runningTasks → Reach (finishTask now tid o s)
  | setConc {s : TaskQueue δ ρ} (now : Int) (v : Option Int) :
      Reach s → Reach (setConcurrency now v s)
  | cleanup {s : TaskQueue δ ρ} (tid : Nat) (t : Task δ ρ) :
      Reach s → lookupA s.tasks tid = some t →
      (t.status = TaskStatus.COMPLETED ∨ t.status = TaskStatus.FAILED) →
      Reach (cleanupTask tid s)

/-- Reachability restricted to `setConcurrency` calls that never lower
the cap below the number of currently active workers. -/
inductive GReach {δ ρ : Type} : TaskQueue δ ρ → Prop
  | init (v : Option Int) : GReach (initQueue v)
  | add {s : TaskQueue δ ρ} (now : Int) (ty : String) (d : δ) (p : Int) :
      GReach s → GReach (addTask now ty d p s)
  | finish {s : TaskQueue δ ρ} (now : Int) (tid : Nat) (o : Except String ρ) :
      GReach s → tid ∈ s.runningTasks → GReach (finishTask now tid o s)
  | setConc {s : TaskQueue δ ρ} (now : Int) (v : Option Int) :
      GReach s → s.activeWorkers ≤ normalizeConcurrency v →
      GReach (setConcurrency now v s)
  | cleanup {s : TaskQueue δ ρ} (tid : Nat) (t : Task δ ρ) :
      GReach s → lookupA s.tasks tid = some t →
      (t.status = TaskStatus.COMPLETED ∨ t.status = TaskStatus.FAILED) →
      GReach (cleanupTask tid s)

/-- The concrete run refuting C1 as stated: raise the cap to 2, start
two tasks, then lower the cap to 1 while both run. -/
def lowerCapRun : TaskQueue Unit Unit :=
  setConcurrency 2 (some 1)
    (addTask 1 "judge" () 0
      (addTask 0 "judge" () 0
        (setConcurrency 0 (some 2) (initQueue (some 1)))))

example : lowerCapRun.activeWorkers = 2 := by decide

example : lowerCapRun.concurrency = 1 := by decide

/-! ### Association list lemmas -/

section AList

variable {κ β : Type} [DecidableEq κ]

theorem lookupA_mem : ∀ {l : List (κ × β)} {k : κ} {v : β},
    lookupA l k = some v → (k, v) ∈ l := by
  intro l
  induction l with
  | nil => intro k v h; simp [lookupA] at h
  | cons p l ih =>
    intro k v h
    rw [lookupA] at h
    split_ifs at h with hk
    · obtain ⟨rfl⟩ := Option.some.inj h
      subst hk
      exact List.mem_cons_self _ _
    · exact List.mem_cons_of_mem _ (ih h)

theorem lookupA_key_mem {l : List  (κ × β)} {k : κ} {v : β}
    (h : lookupA l k = some v) : k ∈ l.map Prod.fst := by
  exact List.mem_map.mpr ⟨(k, v), lookupA_mem h, rfl⟩

theorem mem_lookupA_of_nodup : ∀ {l : List (κ × β)} {k : κ} {v : β},
    (l.map Prod.fst).Nodup → (k, v) ∈ l → lookupA l k = some v := by
  intro l
  induction l with
  | nil => intro k v _ h; simp at h
  | cons p l ih =>
    intro k v hnd hm
    obtain ⟨hp, hnd'⟩ := List.pairwise_cons.mp hnd
    rcases List.mem_cons.mp hm with h0 | h0
    · subst h0
      simp [lookupA]
    · rw [lookupA]
      have hk : p.1 ≠ k := by
        intro he
        exact hp k (List.mem_map.mpr ⟨(k, v), h0, rfl⟩) he
      rw [if_neg hk]
      exact ih hnd' h0

theorem lookupA_updA_self (l : List (κ × β)) (k : κ) (f : β → β) :
    lookupA (updA l k f) k = (lookupA l k).map f := by
  induction l with
  | nil => simp [lookupA, updA]
  | cons p l ih =>
    rw [updA, List.map_cons]
    by_cases hk : p.1 = k
    · rw [if_pos hk]
      rw [lookupA, lookupA, if_pos hk, if_pos hk]
      simp
    · rw [if_neg hk]
      rw [lookupA, lookupA, if_neg hk, if_neg hk]
      exact ih

theorem lookupA_updA_other {l : List (κ × β)} {k k' : κ} {f : β → β}
    (h : k' ≠ k) : lookupA (updA l k f) k' = lookupA l k' := by
  induction l with
  | nil => simp [lookupA, updA]
  | cons p l ih =>
    rw [updA, List.map_cons]
    by_cases hk : p.1 = k
    · rw [if_pos hk, lookupA, lookupA]
      have : p.1 ≠ k' := by rw [hk]; exact fun he => h he.symm
      rw [if_neg this, if_neg this]
      exact ih
    · rw [if_neg hk, lookupA, lookupA]
      by_cases hk' : p.1 = k'
      · rw [if_pos hk', if_pos hk']
      · rw [if_neg hk', if_neg hk']
        exact ih

theorem updA_keys (l : List (κ × β)) (k : κ) (f : β → β) :
    (updA l k f).map Prod.fst = l.map Prod.fst := by
  rw [updA, List.map_map]
  apply List.map_congr_left
  intro p _
  by_cases hk : p.1 = k <;> simp [hk]

theorem mem_updA {l : List (κ × β)} {k : κ} {f : β → β} {p : κ × β}
    (h : p ∈ updA l k f) :
    ∃ q ∈ l, p = if q.1 = k then (q.1, f q.2) else q := by
  obtain ⟨q, hq, he⟩ := List.mem_map.mp h
  exact ⟨q, hq, he.symm⟩

theorem mem_removeA {l : List (κ × β)} {k : κ} {p : κ × β}
    (h : p ∈ removeA l k) : p ∈ l ∧ p.1 ≠ k := by
  have := List.mem_filter.mp h
  exact ⟨this.1, by simpa using this.2⟩

theorem lookupA_removeA_other {l : List (κ × β)} {k k' : κ} (h : k' ≠ k) :
    lookupA (removeA l k) k' = lookupA l k' := by
  induction l with
  | nil => simp [lookupA, removeA]
  | cons p l ih =>
    rw [removeA, List.filter_cons]
    by_cases hk : p.1 = k
    · rw [if_neg (by simp [hk])]
      rw [lookupA, if_neg (by rw [hk]; exact fun he => h he.symm)]
      exact ih
    · rw [if_pos (by simp [hk])]
      rw [lookupA, lookupA]
      by_cases hk' : p.1 = k'
      · rw [if_pos hk', if_pos hk']
      · rw [if_neg hk', if_neg hk']
        exact ih

theorem removeA_keys_sublist (l : List (κ × β)) (k : κ) :
    ((removeA l k).map Prod.fst).Sublist (l.map Prod.fst) :=
  (List.filter_sublist l).map Prod.fst

end AList

/-! ### Scheduler: worker-cap lemmas (C1) -/

theorem processGo_concurrency {δ ρ : Type} : ∀ (f : Nat) (now : Int)
    (s : TaskQueue δ ρ), (processGo f now s).concurrency = s.concurrency := by
  intro f
  induction f with
  | zero => intro now s; rfl
  | succ f ih =>
    intro now s
    rw [processGo]
    split_ifs with hc
    · rcases hp : popH s.heap with ⟨o, h2⟩
      cases o with
      | none => rfl
      | some ht => exact ih now _
    · rfl

theorem processGo_active_le {δ ρ : Type} : ∀ (f : Nat) (now : Int)
    (s : TaskQueue δ ρ), s.activeWorkers ≤ s.concurrency →
    (processGo f now s).activeWorkers ≤ (processGo f now s).concurrency := by
  intro f
  induction f with
  | zero => intro now s h; exact h
  | succ f ih =>
    intro now s h
    rw [processGo]
    split_ifs with hc
    · rcases hp : popH s.heap with ⟨o, h2⟩
      cases o with
      | none => exact h
      | some ht => exact ih now _ (by simpa using hc.1)
    · exact h

/-- C1 counterexample: from the initial queue, raise the cap to 2, add
two tasks (both start), then lower the cap to 1 while both are running:
the reachable state `lowerCapRun` has `activeWorkers = 2 > 1 =
concurrency`, so the invariant `activeWorkers ≤ concurrency` fails under
cap-lowering `setConcurrency` calls (running tasks are not preempted). -/
theorem C1_counterexample :
    ¬ (∀ (s : TaskQueue Unit Unit), Reach s →
        s.activeWorkers ≤ s.concurrency) := by
  intro hall
  have hr : Reach lowerCapRun :=
    Reach.setConc 2 (some 1)
      (Reach.add 1 "judge" () 0
        (Reach.add 0 "judge" () 0
          (Reach.setConc 0 (some 2) (Reach.init (some 1)))))
  have h := hall lowerCapRun hr
  have h2 : lowerCapRun.activeWorkers = 2 := by decide
  have h1 : lowerCapRun.concurrency = 1 := by decide
  omega

/-- C1 (amended): for every state reachable by addTask, worker
completion and setConcurrency operations in which no setConcurrency call
lowers the cap below the number of currently active workers,
`activeWorkers ≤ concurrency` holds; the dispatch loop itself never
starts a task unless `activeWorkers < concurrency`.  (A cap-lowering
call can transiently leave `activeWorkers > concurrency` until enough
running tasks finish, as the counterexample shows.) -/
theorem C1_workers_le_concurrency {δ ρ : Type} (s : TaskQueue δ ρ)
    (h : GReach s) : s.activeWorkers ≤ s.concurrency := by
  induction h with
  | init v => exact Nat.zero_le _
  | add now ty d p hs ih =>
    exact processGo_active_le _ now _ (by simpa using ih)
  | finish now tid o hs hmem ih =>
    refine processGo_active_le _ now _ ?_
    simp only []
    omega
  | setConc now v hs hguard ih =>
    rw [setConcurrency]
    split_ifs with he
    · exact ih
    · exact processGo_active_le _ now _ (by simpa using hguard)
  | cleanup tid t hs hl hterm ih => exact ih

/-- Witness for C1 (amended): after one addTask on the default queue,
one worker is active and the cap is 1. -/
theorem C1_workers_le_concurrency_witness :
    (addTask 0 "judge" () 0
        (initQueue (some 1) : TaskQueue Unit Unit)).activeWorkers ≤
      (addTask 0 "judge" () 0
        (initQueue (some 1) : TaskQueue Unit Unit)).concurrency :=
  C1_workers_le_concurrency _ (GReach.add 0 "judge" () 0 (GReach.init (some 1)))

/-! ### Scheduler: the status / result / error invariant (C9) -/

/-- The per-task field invariant from the spec's §8. -/
def TaskInv {δ ρ : Type} (t : Task δ ρ) : Prop :=
  (t.status = TaskStatus.PENDING → t.result = none ∧ t.error = none) ∧
  (t.status = TaskStatus.RUNNING → t.result = none ∧ t.error = none) ∧
  (t.status = TaskStatus.COMPLETED → t.result.isSome ∧ t.error = none) ∧
  (t.status = TaskStatus.FAILED → t.error.isSome ∧ t.result = none)

/-- Consistency of the whole scheduler state: every registered task
satisfies `TaskInv`, queued heap entries point to pending registry
tasks, `runningTasks` keys point to running registry tasks, ids are
duplicate-free, and all ids were generated before `nextId`. -/
structure QueueInv {δ ρ : Type} (s : TaskQueue δ ρ) : Prop where
  taskInv : ∀ p ∈ s.tasks, TaskInv p.2
  heapCoh : ∀ ht ∈ s.heap, ∃ t, lookupA s.tasks ht.tid = some t ∧
    t.status = TaskStatus.PENDING
  runCoh : ∀ k ∈ s.runningTasks, ∃ t, lookupA s.tasks k = some t ∧
    t.status = TaskStatus.RUNNING
  heapNd : (s.heap.map HTask.tid).Nodup
  runNd : s.runningTasks.Nodup
  fresh : ∀ p ∈ s.tasks, p.1 < s.nextId
  keysNd : (s.tasks.map Prod.fst).Nodup

theorem TaskInv_of_pending {δ ρ : Type} {t : Task δ ρ}
    (hs : t.status = TaskStatus.PENDING) (hr : t.result = none)
    (he : t.error = none) : TaskInv t := by
  refine ⟨fun _ => ⟨hr, he⟩, ?_, ?_, ?_⟩ <;>
    · intro h0
      rw [hs] at h0
      exact absurd h0 (by decide)

theorem TaskInv_of_running {δ ρ : Type} {t : Task δ ρ}
    (hs : t.status = TaskStatus.RUNNING) (hr : t.result = none)
    (he : t.error = none) : TaskInv t := by
  refine ⟨?_, fun _ => ⟨hr, he⟩, ?_, ?_⟩ <;>
    · intro h0
      rw [hs] at h0
      exact absurd h0 (by decide)

theorem TaskInv_of_completed {δ ρ : Type} {t : Task δ ρ}
    (hs : t.status = TaskStatus.COMPLETED) (hr : t.result.isSome)
    (he : t.error = none) : TaskInv t := by
  refine ⟨?_, ?_, fun _ => ⟨hr, he⟩, ?_⟩ <;>
    · intro h0
      rw [hs] at h0
      exact absurd h0 (by decide)

theorem TaskInv_of_failed {δ ρ : Type} {t : Task δ ρ}
    (hs : t.status = TaskStatus.FAILED) (he : t.error.isSome)
    (hr : t.result = none) : TaskInv t := by
  refine ⟨?_, ?_, ?_, fun _ => ⟨he, hr⟩⟩ <;>
    · intro h0
      rw [hs] at h0
      exact absurd h0 (by decide)

theorem processGo_inv {δ ρ : Type} : ∀ (f : Nat) (now : Int)
    (s : TaskQueue δ ρ), QueueInv s → QueueInv (processGo f now s) := by
  intro f
  induction f with
  | zero => intro now s h; exact h
  | succ f ih =>
    intro now s inv
    rw [processGo]
    split_ifs with hc
    · rcases hp : popH s.heap with ⟨o, h2⟩
      cases o with
      | none => exact inv
      | some ht =>
        apply ih
        -- facts about the popped element
        have hne : s.heap ≠ [] := by
          intro h0
          rw [h0] at hc
          simp at hc
        obtain ⟨hfst, hperm⟩ := popH_spec hne
        rw [hp] at hfst hperm
        have hht : ht = s.heap.getD 0 default := by
          simpa using hfst
        rw [← hht] at hperm
        have hht_mem : ht ∈ s.heap :=
          hperm.mem_iff.mp (List.mem_cons_self _ _)
        have hsub : ∀ x ∈ h2, x ∈ s.heap := fun x hx =>
          hperm.mem_iff.mp (List.mem_cons_of_mem _ hx)
        have hnd : (ht.tid :: h2.map HTask.tid).Nodup := by
          have h3 : ((ht :: h2).map HTask.tid).Perm (s.heap.map HTask.tid) :=
            hperm.map _
          rw [List.map_cons] at h3
          exact h3.nodup_iff.mpr inv.heapNd
        have hht_nin : ht.tid ∉ h2.map HTask.tid := (List.nodup_cons.mp hnd).1
        have hnd2 : (h2.map HTask.tid).Nodup := (List.nodup_cons.mp hnd).2
        obtain ⟨t0, hl0, hst0⟩ := inv.heapCoh ht hht_mem
        have ht0_inv : TaskInv t0 := inv.taskInv (ht.tid, t0) (lookupA_mem hl0)
        obtain ⟨ht0_res, ht0_err⟩ := ht0_inv.1 hst0
        have hht_nrun : ht.tid ∉ s.runningTasks := by
          intro hmem
          obtain ⟨t1, hl1, hst1⟩ := inv.runCoh ht.tid hmem
          rw [hl0] at hl1
          injection hl1 with h3
          rw [h3] at hst0
          exact (by decide : TaskStatus.PENDING ≠ TaskStatus.RUNNING)
            (hst0.symm.trans hst1)
        refine ⟨?_, ?_, ?_, ?_, ?_, ?_, ?_⟩
        · -- every registered task still satisfies TaskInv
          intro p hp2
          dsimp only at hp2
          obtain ⟨q, hq, he⟩ := mem_updA hp2
          by_cases hqk : q.1 = ht.tid
          · rw [if_pos hqk] at he
            have hlq : lookupA s.tasks q.1 = some q.2 :=
              mem_lookupA_of_nodup inv.keysNd hq
            rw [hqk, hl0] at hlq
            injection hlq with h3
            subst he
            refine TaskInv_of_running rfl ?_ ?_
            · simpa [← h3] using ht0_res
            · simpa [← h3] using ht0_err
          · rw [if_neg hqk] at he
            subst he
            exact inv.taskInv _ hq
        · -- remaining heap entries still point to pending tasks
          intro ht' hm'
          dsimp only at hm' ⊢
          obtain ⟨t', hl', hst'⟩ := inv.heapCoh ht' (hsub ht' hm')
          have hne' : ht'.tid ≠ ht.tid := by
            intro he
            exact hht_nin (he ▸ List.mem_map_of_mem HTask.tid hm')
          refine ⟨t', ?_, hst'⟩
          rw [lookupA_updA_other hne']
          exact hl'
        · -- running keys point to running tasks
          intro k hk
          dsimp only at hk ⊢
          rcases List.mem_cons.mp hk with h0 | h0
          · subst h0
            have hlk : lookupA (updA s.tasks ht.tid (fun t =>
                { t with status := TaskStatus.RUNNING, startedAt := some now }))
                  ht.tid =
                some { t0 with status := TaskStatus.RUNNING, startedAt := some now } := by
              rw [lookupA_updA_self, hl0]
              rfl
            exact ⟨_, hlk, rfl⟩
          · obtain ⟨t', hl', hst'⟩ := inv.runCoh k h0
            have hne' : k ≠ ht.tid := fun he => hht_nrun (he ▸ h0)
            refine ⟨t', ?_, hst'⟩
            rw [lookupA_updA_other hne']
            exact hl'
        · exact hnd2
        · exact List.nodup_cons.mpr ⟨hht_nrun, inv.runNd⟩
        · intro p hp2
          dsimp only at hp2 ⊢
          obtain ⟨q, hq, he⟩ := mem_updA hp2
          have hpq : p.1 = q.1 := by
            split_ifs at he <;> simp [he]
          rw [hpq]
          exact inv.fresh q hq
        · dsimp only
          rw [updA_keys]
          exact inv.keysNd
    · exact inv

theorem addTask_inv {δ ρ : Type} (now : Int) (ty : String) (d : δ) (p : Int)
    {s : TaskQueue δ ρ} (inv : QueueInv s) : QueueInv (addTask now ty d p s) := by
  apply processGo_inv
  have hperm := pushH_perm s.heap ⟨p, now, s.nextId⟩
  have hmemp : ∀ x ∈ pushH s.heap ⟨p, now, s.nextId⟩,
      x = ⟨p, now, s.nextId⟩ ∨ x ∈ s.heap := by
    intro x hx
    simpa using hperm.mem_iff.mp hx
  have hfresh_heap : ∀ ht ∈ s.heap, ht.tid < s.nextId := by
    intro ht hm
    obtain ⟨t', hl', _⟩ := inv.heapCoh ht hm
    exact inv.fresh _ (lookupA_mem hl')
  have hfresh_run : ∀ k ∈ s.runningTasks, k < s.nextId := by
    intro k hm
    obtain ⟨t', hl', _⟩ := inv.runCoh k hm
    exact inv.fresh _ (lookupA_mem hl')
  refine ⟨?_, ?_, ?_, ?_, ?_, ?_, ?_⟩
  · intro q hq
    dsimp only at hq
    rcases List.mem_cons.mp hq with h0 | h0
    · rw [h0]
      exact TaskInv_of_pending rfl rfl rfl
    · exact inv.taskInv _ h0
  · intro ht hm
    dsimp only at hm ⊢
    rcases hmemp ht hm with h0 | h0
    · subst h0
      exact ⟨newTask s.nextId ty d p now, by rw [lookupA, if_pos rfl], rfl⟩
    · obtain ⟨t', hl', hst'⟩ := inv.heapCoh ht h0
      have hne : s.nextId ≠ ht.tid := by
        have := hfresh_heap ht h0
        omega
      refine ⟨t', ?_, hst'⟩
      rw [lookupA, if_neg hne]
      exact hl'
  · intro k hk
    dsimp only at hk ⊢
    obtain ⟨t', hl', hst'⟩ := inv.runCoh k hk
    have hne : s.nextId ≠ k := by
      have := hfresh_run k hk
      omega
    refine ⟨t', ?_, hst'⟩
    rw [lookupA, if_neg hne]
    exact hl'
  · dsimp only
    have h3 : ((pushH s.heap ⟨p, now, s.nextId⟩).map HTask.tid).Perm
        ((⟨p, now, s.nextId⟩ :: s.heap : List HTask).map HTask.tid) := hperm.map _
    rw [List.map_cons] at h3
    refine h3.nodup_iff.mpr (List.nodup_cons.mpr ⟨?_, inv.heapNd⟩)
    intro hmem
    obtain ⟨ht, hm, he⟩ := List.mem_map.mp hmem
    have h4 := hfresh_heap ht hm
    have he2 : ht.tid = s.nextId := he
    omega
  · exact inv.runNd
  · intro q hq
    dsimp only at hq ⊢
    rcases List.mem_cons.mp hq with h0 | h0
    · have h1 : q.1 = s.nextId := by rw [h0]
      omega
    · have := inv.fresh _ h0
      omega
  · dsimp only
    rw [List.map_cons]
    refine List.nodup_cons.mpr ⟨?_, inv.keysNd⟩
    intro hmem
    obtain ⟨q, hq, he⟩ := List.mem_map.mp hmem
    have h4 := inv.fresh q hq
    have he2 : q.1 = s.nextId := he
    omega

theorem finishTask_inv {δ ρ : Type} (now : Int) (tid : Nat)
    (o : Except String ρ) {s : TaskQueue δ ρ} (inv : QueueInv s)
    (hmem : tid ∈ s.runningTasks) : QueueInv (finishTask now tid o s) := by
  apply processGo_inv
  obtain ⟨t0, hl0, hst0⟩ := inv.runCoh tid hmem
  have ht0_inv := inv.taskInv (tid, t0) (lookupA_mem hl0)
  obtain ⟨ht0_res, ht0_err⟩ := ht0_inv.2.1 hst0
  refine ⟨?_, ?_, ?_, inv.heapNd, ?_, ?_, ?_⟩
  · intro q hq
    dsimp only at hq
    obtain ⟨q', hq', he⟩ := mem_updA hq
    by_cases hqk : q'.1 = tid
    · rw [if_pos hqk] at he
      have hlq : lookupA s.tasks q'.1 = some q'.2 :=
        mem_lookupA_of_nodup inv.keysNd hq'
      rw [hqk, hl0] at hlq
      injection hlq with h3
      subst he
      cases o with
      | ok r =>
        refine TaskInv_of_completed rfl rfl ?_
        show q'.2.error = none
        rw [← h3]
        exact ht0_err
      | error e =>
        refine TaskInv_of_failed rfl rfl ?_
        show q'.2.result = none
        rw [← h3]
        exact ht0_res
    · rw [if_neg hqk] at he
      subst he
      exact inv.taskInv _ hq'
  · intro ht hm
    dsimp only at hm ⊢
    obtain ⟨t', hl', hst'⟩ := inv.heapCoh ht hm
    have hne : ht.tid ≠ tid := by
      intro he
      rw [he, hl0] at hl'
      injection hl' with h3
      rw [h3] at hst0
      exact (by decide : TaskStatus.PENDING ≠ TaskStatus.RUNNING)
        (hst'.symm.trans hst0)
    refine ⟨t', ?_, hst'⟩
    rw [lookupA_updA_other hne]
    exact hl'
  · intro k hk
    dsimp only at hk ⊢
    have hk2 := List.mem_filter.mp hk
    have hkne : k ≠ tid := by simpa using hk2.2
    obtain ⟨t', hl', hst'⟩ := inv.runCoh k hk2.1
    refine ⟨t', ?_, hst'⟩
    rw [lookupA_updA_other hkne]
    exact hl'
  · exact inv.runNd.filter _
  · intro q hq
    dsimp only at hq ⊢
    obtain ⟨q', hq', he⟩ := mem_updA hq
    have hpq : q.1 = q'.1 := by
      split_ifs at he <;> simp [he]
    rw [hpq]
    exact inv.fresh _ hq'
  · dsimp only
    rw [updA_keys]
    exact inv.keysNd

theorem setConcurrency_inv {δ ρ : Type} (now : Int) (v : Option Int)
    {s : TaskQueue δ ρ} (inv : QueueInv s) :
    QueueInv (setConcurrency now v s) := by
  rw [setConcurrency]
  split_ifs with he
  · exact inv
  · exact processGo_inv _ _ _
      ⟨inv.taskInv, inv.heapCoh, inv.runCoh, inv.heapNd, inv.runNd,
        inv.fresh, inv.keysNd⟩

theorem cleanupTask_inv {δ ρ : Type} (tid : Nat) {s : TaskQueue δ ρ}
    (inv : QueueInv s) {t : Task δ ρ} (hl : lookupA s.tasks tid = some t)
    (hterm : t.status = TaskStatus.COMPLETED ∨ t.status = TaskStatus.FAILED) :
    QueueInv (cleanupTask tid s) := by
  refine ⟨?_, ?_, ?_, inv.heapNd, inv.runNd, ?_, ?_⟩
  · intro q hq
    exact inv.taskInv _ (mem_removeA hq).1
  · intro ht hm
    dsimp only at hm ⊢
    obtain ⟨t', hl', hst'⟩ := inv.heapCoh ht hm
    have hne : ht.tid ≠ tid := by
      intro he
      rw [he, hl] at hl'
      injection hl' with h3
      rw [h3] at hterm
      rcases hterm with h4 | h4
      · exact (by decide : TaskStatus.PENDING ≠ TaskStatus.COMPLETED)
          (hst'.symm.trans h4)
      · exact (by decide : TaskStatus.PENDING ≠ TaskStatus.FAILED)
          (hst'.symm.trans h4)
    refine ⟨t', ?_, hst'⟩
    show lookupA (removeA s.tasks tid) ht.tid = some t'
    rw [lookupA_removeA_other hne]
    exact hl'
  · intro k hk
    dsimp only at hk ⊢
    obtain ⟨t', hl', hst'⟩ := inv.runCoh k hk
    have hne : k ≠ tid := by
      intro he
      rw [he, hl] at hl'
      injection hl' with h3
      rw [h3] at hterm
      rcases hterm with h4 | h4
      · exact (by decide : TaskStatus.RUNNING ≠ TaskStatus.COMPLETED)
          (hst'.symm.trans h4)
      · exact (by decide : TaskStatus.RUNNING ≠ TaskStatus.FAILED)
          (hst'.symm.trans h4)
    refine ⟨t', ?_, hst'⟩
    show lookupA (removeA s.tasks tid) k = some t'
    rw [lookupA_removeA_other hne]
    exact hl'
  · intro q hq
    exact inv.fresh _ (mem_removeA hq).1
  · exact inv.keysNd.sublist (removeA_keys_sublist _ _)

theorem Reach_inv {δ ρ : Type} {s : TaskQueue δ ρ} (h : Reach s) :
    QueueInv s := by
  induction h with
  | init v => exact ⟨by simp [initQueue], by simp [initQueue],
      by simp [initQueue], by simp [initQueue], by simp [initQueue],
      by simp [initQueue], by simp [initQueue]⟩
  | add now ty d p hs ih => exact addTask_inv now ty d p ih
  | finish now tid o hs hmem ih => exact finishTask_inv now tid o ih hmem
  | setConc now v hs ih => exact setConcurrency_inv now v ih
  | cleanup tid t hs hl hterm ih => exact cleanupTask_inv tid ih hl hterm

/-- C9: in every reachable scheduler state, a completed task has a
non-null result and a null error, a failed task has a non-null error
and a null result, and a pending or running task has both null. -/
theorem C9_result_error_discipline {δ ρ : Type} (s : TaskQueue δ ρ)
    (hs : Reach s) (k : Nat) (t : Task δ ρ)
    (hl : lookupA s.tasks k = some t) :
    ((t.status = TaskStatus.PENDING ∨ t.status = TaskStatus.RUNNING) →
      t.result = none ∧ t.error = none) ∧
    (t.status = TaskStatus.COMPLETED → t.result.isSome ∧ t.error = none) ∧
    (t.status = TaskStatus.FAILED → t.error.isSome ∧ t.result = none) := by
  have inv := Reach_inv hs
  have hti := inv.taskInv (k, t) (lookupA_mem hl)
  exact ⟨fun h0 => h0.elim hti.1 hti.2.1, hti.2.2.1, hti.2.2.2⟩

/-- Witness for C9: the single task of a one-task run is running with
null result and error. -/
theorem C9_result_error_discipline_witness :
    ({ tid := 0, type := "j", data := (), priority := 0,
       status := TaskStatus.RUNNING, result := none, error := none,
       createdAt := 0, startedAt := some 0,
       completedAt := none } : Task Unit Unit).result = none ∧
    ({ tid := 0, type := "j", data := (), priority := 0,
       status := TaskStatus.RUNNING, result := none, error := none,
       createdAt := 0, startedAt := some 0,
       completedAt := none } : Task Unit Unit).error = none :=
  (C9_result_error_discipline _ (Reach.add 0 "j" () 0 (Reach.init (some 1)))
    0 _ rfl).1 (Or.inr rfl)

/-! ### Artifact cache (module `cache.js`, class `CacheManager`)

File paths `path.join(CACHE_DIR, type, id)` are modelled as the pair
`(type, id)`; file contents are byte lists; the on-disk state is an
association list from paths to bytes; `uuidv4` is modelled by the
injective generator `genId` driven by a counter. -/

def CACHE_TTL : Nat := 5 * 60 * 1000

structure CacheItem where
  typ : String
  filePath : String × String
  createdAt : Nat
  expiresAt : Nat
deriving DecidableEq

/-- `CacheItem.isExpired`, with `Date.now()` passed explicitly. -/
def CacheItem.isExpired (item : CacheItem) (now : Nat) : Bool :=
  item.expiresAt < now

structure CacheState where
  cache : List (String × CacheItem)
  disk : List ((String × String) × List Nat)
  counter : Nat
deriving DecidableEq

def genId (n : Nat) : String := String.mk (List.replicate (n + 1) 'c')

def emptyCache : CacheState := ⟨[], [], 0⟩

/-- The record returned by `CacheManager.get` (metadata elided). -/
structure CacheView where
  id : String
  typ : String
  filePath : String × String
  createdAt : Nat
  expiresAt : Nat
deriving DecidableEq

/-- `CacheManager.set`: write the file, then publish the index entry. -/
def cacheSet (s : CacheState) (now : Nat) (typ : String) (data : List Nat) :
    String × CacheState :=
  let id := genId s.counter
  let filePath := (typ, id)
  let item : CacheItem := ⟨typ, filePath, now, now + CACHE_TTL⟩
  (id, { cache := (id, item) :: removeA s.cache id,
         disk := (filePath, data) :: removeA s.disk filePath,
         counter := s.counter + 1 })

/-- `CacheManager.delete`: unlink the file (best effort), drop the
index entry. -/
def cacheDelete (s : CacheState) (id : String) : CacheState :=
  match lookupA s.cache id with
  | none => s
  | some item =>
    { s with cache := removeA s.cache id, disk := removeA s.disk item.filePath }

/-- `CacheManager.get`: unknown → none; expired → self-delete, none;
file missing on disk → self-delete, none; otherwise the item view. -/
def cacheGet (s : CacheState) (id : String) (now : Nat) :
    Option CacheView × CacheState :=
  match lookupA s.cache id with
  | none => (none, s)
  | some item =>
    if item.isExpired now then (none, cacheDelete s id)
    else if (lookupA s.disk item.filePath).isNone then (none, cacheDelete s id)
    else (some ⟨id, item.typ, item.filePath, item.createdAt, item.expiresAt⟩, s)

/-- `CacheManager.has`: index membership and expiry only — no
file-existence check. -/
def cacheHas (s : CacheState) (id : String) (now : Nat) : Bool × CacheState :=
  match lookupA s.cache id with
  | none => (false, s)
  | some item =>
    if item.isExpired now then (false, cacheDelete s id)
    else (true, s)

/-- `CacheManager.refresh`: extend the TTL of a live entry. -/
def cacheRefresh (s : CacheState) (id : String) (now : Nat) :
    Bool × CacheState :=
  match lookupA s.cache id with
  | none => (false, s)
  | some item =>
    if item.isExpired now then (false, s)
    else
      let bump := fun (it : CacheItem) => { it with expiresAt := now + CACHE_TTL }
      (true, { s with cache := updA s.cache id bump })

/-- `CacheManager.cleanup`: collect the expired ids, then delete each. -/
def cacheCleanup (s : CacheState) (now : Nat) : CacheState :=
  let expiredIds := (s.cache.filter (fun p => p.2.isExpired now)).map Prod.fst
  expiredIds.foldl cacheDelete s

/-- `get` followed by reading the returned file path from disk — the
round-trip a consumer of the cache performs. -/
def cacheGetBytes (s : CacheState) (id : String) (now : Nat) :
    Option (List Nat) × CacheState :=
  match cacheGet s id now with
  | (none, s') => (none, s')
  | (some v, s') => (lookupA s'.disk v.filePath, s')

/-- The cache's operations, plus `vanish`: an external removal of a
backing file from the `/tmp` cache directory (not a cache API call). -/
inductive CacheOp where
  | set (now : Nat) (typ : String) (data : List Nat)
  | get (now : Nat) (id : String)
  | has (now : Nat) (id : String)
  | del (id : String)
  | refresh (now : Nat) (id : String)
  | sweep (now : Nat)
  | vanish (filePath : String × String)
deriving DecidableEq

def applyCacheOp (s : CacheState) : CacheOp → CacheState
  | .set now typ data => (cacheSet s now typ data).2
  | .get now id => (cacheGet s id now).2
  | .has now id => (cacheHas s id now).2
  | .del id => cacheDelete s id
  | .refresh now id => (cacheRefresh s id now).2
  | .sweep now => cacheCleanup s now
  | .vanish fp => { s with disk := removeA s.disk fp }

def applyCacheOps (s : CacheState) (ops : List CacheOp) : CacheState :=
  ops.foldl applyCacheOp s

/-! ### Cache lemmas (C4, C10) -/

theorem lookupA_removeA_self {κ β : Type} [DecidableEq κ]
    (l : List (κ × β)) (k : κ) : lookupA (removeA l k) k = none := by
  induction l with
  | nil => simp [lookupA, removeA]
  | cons p l ih =>
    rw [removeA, List.filter_cons]
    by_cases hk : p.1 = k
    · rw [if_neg (by simp [hk])]
      exact ih
    · rw [if_pos (by simp [hk]), lookupA, if_neg hk]
      exact ih

theorem genId_inj {m n : Nat} (h : genId m = genId n) : m = n := by
  unfold genId at h
  have h2 : List.replicate (m + 1) 'c' = List.replicate (n + 1) 'c' :=
    congrArg String.data h
  have h3 := congrArg List.length h2
  simpa using h3

/-- Well-formedness of a cache state: every index key and every disk
path was produced by the id generator before the current counter, the
stored `filePath` is the one computed by `set`, and keys are unique. -/
structure CacheWF (s : CacheState) : Prop where
  cacheIds : ∀ p ∈ s.cache, ∃ k, k < s.counter ∧ p.1 = genId k
  cachePaths : ∀ p ∈ s.cache, p.2.filePath = (p.2.typ, p.1)
  diskIds : ∀ q ∈ s.disk, ∃ k, k < s.counter ∧ q.1.2 = genId k
  cacheNd : (s.cache.map Prod.fst).Nodup
  diskNd : (s.disk.map Prod.fst).Nodup

/-- The tracked artifact: its index entry is present with the canonical
file path, its bytes are on disk, and it expires no earlier than `e`. -/
def EntryLive (s : CacheState) (id : String) (data : List Nat) (e : Nat) :
    Prop :=
  ∃ item, lookupA s.cache id = some item ∧ item.filePath = (item.typ, id) ∧
    lookupA s.disk item.filePath = some data ∧ e ≤ item.expiresAt

/-- Constraints on an operation under which it cannot destroy the
tracked artifact `id` (with insertion time `t0` and expiry `e`): it is
not a delete of `id` nor an external removal of its file, and its
timestamp lies within the artifact's lifetime window. -/
def OpOkFor (id : String) (t0 e : Nat) : CacheOp → Prop
  | .set _ _ _ => True
  | .get now _ => now ≤ e
  | .has now _ => now ≤ e
  | .del i => i ≠ id
  | .refresh now _ => t0 ≤ now ∧ now ≤ e
  | .sweep now => now ≤ e
  | .vanish p => p.2 ≠ id

theorem cacheDelete_WF {s : CacheState} (hWF : CacheWF s) (id : String) :
    CacheWF (cacheDelete s id) := by
  rw [cacheDelete]
  cases hl : lookupA s.cache id with
  | none => exact hWF
  | some item =>
    refine ⟨?_, ?_, ?_, ?_, ?_⟩
    · intro p hp
      exact hWF.cacheIds _ (mem_removeA hp).1
    · intro p hp
      exact hWF.cachePaths _ (mem_removeA hp).1
    · intro q hq
      exact hWF.diskIds _ (mem_removeA hq).1
    · exact hWF.cacheNd.sublist (removeA_keys_sublist _ _)
    · exact hWF.diskNd.sublist (removeA_keys_sublist _ _)

theorem cacheDelete_live {s : CacheState} {id : String} {data : List Nat}
    {e : Nat} (hWF : CacheWF s) (hlive : EntryLive s id data e)
    {other : String} (hne : other ≠ id) :
    EntryLive (cacheDelete s other) id data e := by
  obtain ⟨item, hli, hfp, hld, hexp⟩ := hlive
  rw [cacheDelete]
  cases hl : lookupA s.cache other with
  | none => exact ⟨item, hli, hfp, hld, hexp⟩
  | some item' =>
    refine ⟨item, ?_, hfp, ?_, hexp⟩
    · rw [lookupA_removeA_other (Ne.symm hne)]
      exact hli
    · have h1 : item'.filePath = (item'.typ, other) :=
        hWF.cachePaths _ (lookupA_mem hl)
      have h2 : item.filePath ≠ item'.filePath := by
        rw [hfp, h1]
        intro he
        exact hne (congrArg Prod.snd he).symm
      rw [lookupA_removeA_other h2]
      exact hld

theorem cacheSet_establishes {s : CacheState} (hWF : CacheWF s) (now : Nat)
    (typ : String) (data : List Nat) :
    EntryLive (cacheSet s now typ data).2 (genId s.counter) data
        (now + CACHE_TTL) ∧
      CacheWF (cacheSet s now typ data).2 := by
  constructor
  · refine ⟨⟨typ, (typ, genId s.counter), now, now + CACHE_TTL⟩, ?_, rfl, ?_, le_refl _⟩
    · rw [cacheSet]
      show lookupA ((genId s.counter, _) :: _) (genId s.counter) = _
      rw [lookupA, if_pos rfl]
    · show lookupA (((typ, genId s.counter), data) :: _) (typ, genId s.counter) = _
      rw [lookupA, if_pos rfl]
  · have hstate : (cacheSet s now typ data).2 =
        { cache := (genId s.counter,
            ⟨typ, (typ, genId s.counter), now, now + CACHE_TTL⟩) ::
              removeA s.cache (genId s.counter),
          disk := ((typ, genId s.counter), data) ::
            removeA s.disk (typ, genId s.counter),
          counter := s.counter + 1 } := rfl
    rw [hstate]
    refine ⟨?_, ?_, ?_, ?_, ?_⟩
    · intro p hp
      dsimp only at hp ⊢
      rcases List.mem_cons.mp hp with h0 | h0
      · exact ⟨s.counter, by omega, by rw [h0]⟩
      · obtain ⟨k, hk, he⟩ := hWF.cacheIds _ (mem_removeA h0).1
        exact ⟨k, by omega, he⟩
    · intro p hp
      dsimp only at hp ⊢
      rcases List.mem_cons.mp hp with h0 | h0
      · rw [h0]
      · exact hWF.cachePaths _ (mem_removeA h0).1
    · intro q hq
      dsimp only at hq ⊢
      rcases List.mem_cons.mp hq with h0 | h0
      · exact ⟨s.counter, by omega, by rw [h0]⟩
      · obtain ⟨k, hk, he⟩ := hWF.diskIds _ (mem_removeA h0).1
        exact ⟨k, by omega, he⟩
    · dsimp only
      rw [List.map_cons]
      refine List.nodup_cons.mpr ⟨?_, hWF.cacheNd.sublist (removeA_keys_sublist _ _)⟩
      intro hmem
      obtain ⟨q, hq, he⟩ := List.mem_map.mp hmem
      exact (mem_removeA hq).2 he
    · dsimp only
      rw [List.map_cons]
      refine List.nodup_cons.mpr ⟨?_, hWF.diskNd.sublist (removeA_keys_sublist _ _)⟩
      intro hmem
      obtain ⟨q, hq, he⟩ := List.mem_map.mp hmem
      exact (mem_removeA hq).2 he

theorem foldl_cacheDelete_WF : ∀ (ids : List String) (s : CacheState),
    CacheWF s → CacheWF (ids.foldl cacheDelete s) := by
  intro ids
  induction ids with
  | nil => intro s h; exact h
  | cons x ids ih =>
    intro s h
    exact ih _ (cacheDelete_WF h x)

theorem cacheRefresh_WF {s : CacheState} (hWF : CacheWF s) (id : String)
    (now : Nat) : CacheWF (cacheRefresh s id now).2 := by
  rw [cacheRefresh]
  cases hl : lookupA s.cache id with
  | none => exact hWF
  | some item =>
    dsimp only
    split_ifs with he
    · exact hWF
    · refine ⟨?_, ?_, hWF.diskIds, ?_, hWF.diskNd⟩
      · intro p hp
        dsimp only at hp ⊢
        obtain ⟨q, hq, heq⟩ := mem_updA hp
        have hpq : p.1 = q.1 := by
          split_ifs at heq <;> simp [heq]
        rw [hpq]
        exact hWF.cacheIds _ hq
      · intro p hp
        dsimp only at hp ⊢
        obtain ⟨q, hq, heq⟩ := mem_updA hp
        have hq2 := hWF.cachePaths _ hq
        split_ifs at heq <;> rw [heq] <;> exact hq2
      · dsimp only
        rw [updA_keys]
        exact hWF.cacheNd

theorem applyCacheOp_WF {s : CacheState} (hWF : CacheWF s) (op : CacheOp) :
    CacheWF (applyCacheOp s op) := by
  cases op with
  | set now typ data => exact (cacheSet_establishes hWF now typ data).2
  | get now id =>
    show CacheWF (cacheGet s id now).2
    rw [cacheGet]
    cases hl : lookupA s.cache id with
    | none => exact hWF
    | some item =>
      dsimp only
      split_ifs with h1 h2
      · exact cacheDelete_WF hWF id
      · exact cacheDelete_WF hWF id
      · exact hWF
  | has now id =>
    show CacheWF (cacheHas s id now).2
    rw [cacheHas]
    cases hl : lookupA s.cache id with
    | none => exact hWF
    | some item =>
      dsimp only
      split_ifs with h1
      · exact cacheDelete_WF hWF id
      · exact hWF
  | del id => exact cacheDelete_WF hWF id
  | refresh now id => exact cacheRefresh_WF hWF id now
  | sweep now => exact foldl_cacheDelete_WF _ _ hWF
  | vanish fp =>
    refine ⟨hWF.cacheIds, hWF.cachePaths, ?_, hWF.cacheNd, ?_⟩
    · intro q hq
      exact hWF.diskIds _ (mem_removeA hq).1
    · exact hWF.diskNd.sublist (removeA_keys_sublist _ _)

theorem foldl_cacheDelete_live {id : String} {data : List Nat} {e : Nat} :
    ∀ (ids : List String) (s : CacheState), CacheWF s →
    EntryLive s id data e → (∀ x ∈ ids, x ≠ id) →
    EntryLive (ids.foldl cacheDelete s) id data e := by
  intro ids
  induction ids with
  | nil => intro s _ h _; exact h
  | cons x ids ih =>
    intro s hWF h hne
    exact ih _ (cacheDelete_WF hWF x)
      (cacheDelete_live hWF h (hne x (List.mem_cons_self _ _)))
      (fun y hy => hne y (List.mem_cons_of_mem _ hy))

theorem applyCacheOp_live {s : CacheState} {id : String} {data : List Nat}
    {t0 e : Nat} (hWF : CacheWF s) (hlive : EntryLive s id data e)
    (he : e = t0 + CACHE_TTL) (op : CacheOp) (hop : OpOkFor id t0 e op) :
    EntryLive (applyCacheOp s op) id data e := by
  obtain ⟨item, hli, hfp, hld, hexp⟩ := hlive
  cases op with
  | set now typ data' =>
    obtain ⟨k0, hk0, hid⟩ := hWF.cacheIds (id, item) (lookupA_mem hli)
    have hne : genId s.counter ≠ id := by
      intro h0
      have hid2 : id = genId k0 := hid
      rw [hid2] at h0
      have := genId_inj h0
      omega
    have hstate : (cacheSet s now typ data').2 =
        { cache := (genId s.counter,
            ⟨typ, (typ, genId s.counter), now, now + CACHE_TTL⟩) ::
              removeA s.cache (genId s.counter),
          disk := ((typ, genId s.counter), data') ::
            removeA s.disk (typ, genId s.counter),
          counter := s.counter + 1 } := rfl
    show EntryLive (cacheSet s now typ data').2 id data e
    rw [hstate]
    refine ⟨item, ?_, hfp, ?_, hexp⟩
    · show lookupA (_ :: removeA s.cache (genId s.counter)) id = some item
      rw [lookupA, if_neg hne, lookupA_removeA_other (Ne.symm hne)]
      exact hli
    · show lookupA (_ :: removeA s.disk (typ, genId s.counter)) item.filePath
        = some data
      have hfpne : (typ, genId s.counter) ≠ item.filePath := by
        rw [hfp]
        intro h0
        exact hne (congrArg Prod.snd h0)
      rw [lookupA, if_neg hfpne, lookupA_removeA_other (Ne.symm hfpne)]
      exact hld
  | get now id' =>
    show EntryLive (cacheGet s id' now).2 id data e
    have hnow : now ≤ e := hop
    by_cases hii : id' = id
    · subst hii
      rw [cacheGet, hli]
      dsimp only
      rw [if_neg (by simp [CacheItem.isExpired]; omega), if_neg (by simp [hld])]
      exact ⟨item, hli, hfp, hld, hexp⟩
    · rw [cacheGet]
      cases hl' : lookupA s.cache id' with
      | none => exact ⟨item, hli, hfp, hld, hexp⟩
      | some item' =>
        dsimp only
        split_ifs with h1 h2
        · exact cacheDelete_live hWF ⟨item, hli, hfp, hld, hexp⟩ hii
        · exact cacheDelete_live hWF ⟨item, hli, hfp, hld, hexp⟩ hii
        · exact ⟨item, hli, hfp, hld, hexp⟩
  | has now id' =>
    show EntryLive (cacheHas s id' now).2 id data e
    have hnow : now ≤ e := hop
    by_cases hii : id' = id
    · subst hii
      rw [cacheHas, hli]
      dsimp only
      rw [if_neg (by simp [CacheItem.isExpired]; omega)]
      exact ⟨item, hli, hfp, hld, hexp⟩
    · rw [cacheHas]
      cases hl' : lookupA s.cache id' with
      | none => exact ⟨item, hli, hfp, hld, hexp⟩
      | some item' =>
        dsimp only
        split_ifs with h1
        · exact cacheDelete_live hWF ⟨item, hli, hfp, hld, hexp⟩ hii
        · exact ⟨item, hli, hfp, hld, hexp⟩
  | del id' => exact cacheDelete_live hWF ⟨item, hli, hfp, hld, hexp⟩ hop
  | refresh now id' =>
    show EntryLive (cacheRefresh s id' now).2 id data e
    have hop2 : t0 ≤ now ∧ now ≤ e := hop
    by_cases hii : id' = id
    · rw [hii, cacheRefresh, hli]
      dsimp only
      rw [if_neg (by simp [CacheItem.isExpired]; omega)]
      refine ⟨{ item with expiresAt := now + CACHE_TTL }, ?_, hfp, hld, ?_⟩
      · have h5 : lookupA (updA s.cache id (fun it =>
            { it with expiresAt := now + CACHE_TTL })) id =
            some { item with expiresAt := now + CACHE_TTL } := by
          rw [lookupA_updA_self, hli]
          rfl
        exact h5
      · show e ≤ now + CACHE_TTL
        omega
    · rw [cacheRefresh]
      cases hl' : lookupA s.cache id' with
      | none => exact ⟨item, hli, hfp, hld, hexp⟩
      | some item' =>
        dsimp only
        split_ifs with h1
        · exact ⟨item, hli, hfp, hld, hexp⟩
        · refine ⟨item, ?_, hfp, hld, hexp⟩
          have h5 : lookupA (updA s.cache id' (fun it =>
              { it with expiresAt := now + CACHE_TTL })) id = some item := by
            rw [lookupA_updA_other (Ne.symm hii)]
            exact hli
          exact h5
  | sweep now =>
    show EntryLive (cacheCleanup s now) id data e
    have hnow : now ≤ e := hop
    rw [cacheCleanup]
    refine foldl_cacheDelete_live _ _ hWF ⟨item, hli, hfp, hld, hexp⟩ ?_
    intro x hx
    obtain ⟨p, hpf, hpe⟩ := List.mem_map.mp hx
    obtain ⟨hpm, hpx⟩ := List.mem_filter.mp hpf
    intro h0
    have hlx : lookupA s.cache p.1 = some p.2 :=
      mem_lookupA_of_nodup hWF.cacheNd hpm
    rw [hpe, h0, hli] at hlx
    injection hlx with h3
    rw [← h3] at hpx
    simp [CacheItem.isExpired] at hpx
    omega
  | vanish fp =>
    refine ⟨item, hli, hfp, ?_, hexp⟩
    show lookupA (removeA s.disk fp) item.filePath = some data
    have hne : item.filePath ≠ fp := by
      rw [hfp]
      intro h0
      exact hop (congrArg Prod.snd h0).symm
    rw [lookupA_removeA_other hne]
    exact hld

theorem applyCacheOps_live {id : String} {data : List Nat} {t0 e : Nat}
    (he : e = t0 + CACHE_TTL) : ∀ (ops : List CacheOp) (s : CacheState),
    CacheWF s → EntryLive s id data e →
    (∀ op ∈ ops, OpOkFor id t0 e op) →
    EntryLive (applyCacheOps s ops) id data e := by
  intro ops
  induction ops with
  | nil => intro s _ h _; exact h
  | cons op ops ih =>
    intro s hWF h hops
    exact ih _ (applyCacheOp_WF hWF op)
      (applyCacheOp_live hWF h he op (hops op (List.mem_cons_self _ _)))
      (fun y hy => hops y (List.mem_cons_of_mem _ hy))

theorem cacheGetBytes_live {s : CacheState} {id : String} {data : List Nat}
    {e now : Nat} (hlive : EntryLive s id data e) (hnow : now ≤ e) :
    (cacheGetBytes s id now).1 = some data := by
  obtain ⟨item, hli, hfp, hld, hexp⟩ := hlive
  rw [cacheGetBytes, cacheGet, hli]
  dsimp only
  rw [if_neg (by simp [CacheItem.isExpired]; omega), if_neg (by simp [hld])]
  exact hld

/-- C4: a byte sequence stored with `set` is returned bit-for-bit by a
later `get` + file read, across any sequence of cache operations whose
timestamps lie within the TTL window and that contains neither a
`delete` of the handle nor an external removal of its backing file;
moreover once the entry's `expiresAt` has passed `get` returns the
`none` sentinel, and after `delete` of the handle `get` returns the
`none` sentinel. -/
theorem C4_cache_roundtrip (s : CacheState) (now₀ : Nat) (typ : String)
    (data : List Nat) (ops : List CacheOp) (now₁ : Nat) (hWF : CacheWF s)
    (hops : ∀ op ∈ ops, OpOkFor (genId s.counter) now₀ (now₀ + CACHE_TTL) op)
    (hnow : now₁ ≤ now₀ + CACHE_TTL) :
    (cacheGetBytes (applyCacheOps (cacheSet s now₀ typ data).2 ops)
        (genId s.counter) now₁).1 = some data ∧
    (∀ (u : CacheState) (i : String) (it : CacheItem) (t : Nat),
      lookupA u.cache i = some it → it.expiresAt < t →
      (cacheGet u i t).1 = none) ∧
    (∀ (u : CacheState) (i : String) (t : Nat),
      (cacheGet (cacheDelete u i) i t).1 = none) := by
  refine ⟨?_, ?_, ?_⟩
  · obtain ⟨hlive, hWF'⟩ := cacheSet_establishes hWF now₀ typ data
    exact cacheGetBytes_live (applyCacheOps_live rfl ops _ hWF' hlive hops) hnow
  · intro u i it t hl ht
    rw [cacheGet, hl]
    dsimp only
    rw [if_pos (by simp [CacheItem.isExpired]; omega)]
  · intro u i t
    rw [cacheGet]
    have hnone : lookupA (cacheDelete u i).cache i = none := by
      rw [cacheDelete]
      cases hl : lookupA u.cache i with
      | none => exact hl
      | some it => exact lookupA_removeA_self _ _
    rw [hnone]

/-- Witness for C4: store two bytes, run an unrelated get, read back. -/
theorem C4_cache_roundtrip_witness :
    (cacheGetBytes (applyCacheOps (cacheSet emptyCache 0 "input" [7, 8]).2
        [CacheOp.get 5 (genId 0)]) (genId 0) 10).1 = some [7, 8] :=
  (C4_cache_roundtrip emptyCache 0 "input" [7, 8] [CacheOp.get 5 (genId 0)] 10
    ⟨by simp [emptyCache], by simp [emptyCache], by simp [emptyCache],
      by simp [emptyCache], by simp [emptyCache]⟩
    (by
      intro op hop
      rcases List.mem_singleton.mp hop with rfl
      show (5 : Nat) ≤ 0 + CACHE_TTL
      decide)
    (by decide)).1

/-- The cache state of the C10 scenario: an artifact is stored, then its
backing file is removed from `/tmp` by an external actor while the index
entry is still present and unexpired. -/
def vanState : CacheState :=
  applyCacheOps emptyCache
    [CacheOp.set 0 "binary" [7], CacheOp.vanish ("binary", genId 0)]

/-- C10: `get` returning a value implies `has` is true (same instant),
but the converse fails: in the reachable state `vanState` (entry
present and unexpired, backing file removed from disk) `has` returns
true while `get` returns the `none` sentinel and removes the index
entry (self-healing); and `has` reads only the index — its result is
unchanged under any replacement of the disk contents. -/
theorem C10_has_vs_get :
    (∀ (s : CacheState) (id : String) (now : Nat),
      (cacheGet s id now).1.isSome → (cacheHas s id now).1 = true) ∧
    ((cacheHas vanState (genId 0) 10).1 = true ∧
      (cacheGet vanState (genId 0) 10).1 = none ∧
      lookupA (cacheGet vanState (genId 0) 10).2.cache (genId 0) = none) ∧
    (∀ (s : CacheState) (id : String) (now : Nat)
      (d : List ((String × String) × List Nat)),
      (cacheHas { s with disk := d } id now).1 = (cacheHas s id now).1) := by
  refine ⟨?_, by decide, ?_⟩
  · intro s id now h
    rw [cacheGet] at h
    cases hl : lookupA s.cache id with
    | none =>
      rw [hl] at h
      simp at h
    | some item =>
      rw [hl] at h
      dsimp only at h
      rw [cacheHas, hl]
      dsimp only
      split_ifs at h with h1 h2
      · simp at h
      · simp at h
      · rw [if_neg h1]
  · intro s id now d
    rw [cacheHas, cacheHas]
    dsimp only
    cases hl : lookupA s.cache id with
    | none => rfl
    | some item =>
      dsimp only
      split_ifs <;> rfl

/-- Witness for C10: on a freshly stored artifact, `get` is `some`, so
`has` is true. -/
theorem C10_has_vs_get_witness :
    (cacheHas (cacheSet emptyCache 0 "input" [1]).2 (genId 0) 5).1 = true :=
  C10_has_vs_get.1 _ (genId 0) 5 (by decide)

/-! ### Pipeline handlers (module `handlers.js`)

Handlers are async functions over the cache singleton and the external
sandbox; they are embedded as pure functions of an environment capturing
the results of their `cacheManager.get` calls and the sandbox oracle's
replies, instrumented with the list of sandbox calls they perform.  A
JS `throw` is `Except.error` with the thrown message. -/

def TESTLIB_CHECKERS : List String :=
  ["icmp", "ncmp", "wcmp", "rcmp", "dcmp", "fcmp", "hcmp", "lcmp",
   "uncmp", "caseicmp", "casencmp", "casewcmp", "yesno", "nyesno",
   "rcmp4", "rcmp6", "rcmp9", "rncmp", "acmp"]

def isHexDigit (c : Char) : Bool :=
  ('0' ≤ c && c ≤ '9') || ('a' ≤ c && c ≤ 'f') || ('A' ≤ c && c ≤ 'F')

/-- Consume exactly `n` hex digits. -/
def dropHexN : Nat → List Char → Option (List Char)
  | 0, cs => some cs
  | _ + 1, [] => none
  | n + 1, c :: cs => if isHexDigit c then dropHexN n cs else none

def expectDash : List Char → Option (List Char)
  | [] => none
  | c :: cs => if c = '-' then some cs else none

/-- The anchored UUID regex `/^[0-9a-f]{8}-[0-9a-f]{4}-[0-9a-f]{4}-
[0-9a-f]{4}-[0-9a-f]{12}$/i` as a character-list matcher. -/
def uuidRest (cs : List Char) : Option (List Char) :=
  dropHexN 8 cs >>= expectDash >>= dropHexN 4 >>= expectDash >>=
    dropHexN 4 >>= expectDash >>= dropHexN 4 >>= expectDash >>= dropHexN 12

/-- `isCustomChecker`: does the checker name match the UUID syntax? -/
def isCustomChecker (checkerName : String) : Bool :=
  uuidRest checkerName.data == some []

/-- `isTestlibChecker`: custom (UUID) checkers always use testlib;
built-ins use it iff listed in `TESTLIB_CHECKERS`. -/
def isTestlibChecker (checkerName : String) : Bool :=
  if isCustomChecker checkerName then true
  else TESTLIB_CHECKERS.contains checkerName

example : isCustomChecker "aabbccdd-0011-2233-4455-66778899aabb" = true := by
  decide

example : isCustomChecker "AABBCCDD-0011-2233-4455-66778899AABB" = true := by
  decide

example : isCustomChecker "ncmp" = false := by decide

example : isCustomChecker "aabbccdd-0011-2233-4455-66778899aab" = false := by
  decide

/-- The sandbox calls a handler can make, in order. -/
inductive SbxCall where
  | compile (isChecker : Bool)
  | compileChecker (name : String)
  | runProgram
  | runChecker (useTestlib : Bool)
  | runInteractive (hasInput : Bool)
  | cleanupTempDir (dir : String)
deriving DecidableEq

structure RunStats where
  status : Int
  code : Int
  time : Nat
  memory : Nat
deriving DecidableEq

/-- Reply of `ChikoJudgeSandbox.runProgram`. -/
structure RunProgramResult where
  result : RunStats
  output : String
  error : String
deriving DecidableEq

/-- Reply of `ChikoJudgeSandbox.runChecker`. -/
structure CheckerResult where
  score : Rat
  normalizedScore : Rat
  message : String
deriving DecidableEq

/-- The record returned by `handleJudge` (absent JS keys are `none`). -/
structure JudgeResult where
  status : String
  score : Option Rat
  normalizedScore : Option Rat
  time : Nat
  memory : Nat
  output : String
  error : Option String
  checkerMessage : Option String
deriving DecidableEq

/-- Environment of one `handleJudge` run: the results of its cache
lookups and the sandbox's replies. -/
structure JudgeEnv where
  binaryCache : Option CacheView
  inputCache : Option CacheView
  outputCache : Option CacheView
  checkerCache : String → Option CacheView
  compileCheckerPath : String → String × String
  run : RunProgramResult
  check : CheckerResult

/-- `getCheckerPath`: UUID names resolve through the cache (throwing if
missing or expired), other names go to the sandbox's `compileChecker`. -/
def getCheckerPath (env : JudgeEnv) (checkerName : String) :
    Except String (String × String) × List SbxCall :=
  if isCustomChecker checkerName then
    match env.checkerCache checkerName with
    | none =>
      (.error ("Custom checker cache not found or expired: " ++ checkerName), [])
    | some c => (.ok c.filePath, [])
  else (.ok (env.compileCheckerPath checkerName), [.compileChecker checkerName])

/-- `handleJudge`: resolve the three artifact handles, run the program,
classify the run result, and only on a clean exit (status 1, code 0)
resolve and run the checker and map its normalized score to a verdict. -/
def handleJudge (env : JudgeEnv) (checkerName : String) :
    Except String JudgeResult × List SbxCall :=
  match env.binaryCache with
  | none => (.error "Binary cache not found or expired", [])
  | some _ =>
  match env.inputCache with
  | none => (.error "Input cache not found or expired", [])
  | some _ =>
  match env.outputCache with
  | none => (.error "Output cache not found or expired", [])
  | some _ =>
    let runResult := env.run
    if runResult.result.status ≠ 1 ∨ runResult.result.code ≠ 0 then
      let status :=
        if runResult.result.status = 2 then "time-limit-exceeded"
        else if runResult.result.status = 3 then "memory-limit-exceeded"
        else "runtime-error"
      (.ok { status := status,
             score := none,
             normalizedScore := none,
             time := runResult.result.time,
             memory := runResult.result.memory,
             output := runResult.output,
             error := some runResult.error,
             checkerMessage := none }, [.runProgram])
    else
      match getCheckerPath env checkerName with
      | (.error m, evs) => (.error m, .runProgram :: evs)
      | (.ok _, evs) =>
        let useTestlib := isTestlibChecker checkerName
        let checkerResult := env.check
        let status :=
          if checkerResult.normalizedScore ≥ 1 then "accepted"
          else if checkerResult.normalizedScore > 0 then "partial-accepted"
          else "wrong-answer"
        (.ok { status := status,
               score := some checkerResult.score,
               normalizedScore := some checkerResult.normalizedScore,
               time := runResult.result.time,
               memory := runResult.result.memory,
               output := runResult.output,
               error := none,
               checkerMessage := some checkerResult.message },
          .runProgram :: evs ++ [.runChecker useTestlib])

/-- Reply of `ChikoJudgeSandbox.compile`. -/
structure CompileOutcome where
  success : Bool
  compileInfo : String
  executablePath : String × String
  tempDir : String
deriving DecidableEq

/-- Environment of one `handleCompile` / `handleCompileChecker` run:
the source-cache lookup result, the sandbox compile reply, and the id
the cache generates for the stored executable. -/
structure CompileEnv where
  sourceCache : Option CacheView
  compileRes : CompileOutcome
  newCacheId : String

structure CompileTaskResult where
  success : Bool
  binaryCacheId : Option String
  compileInfo : String
deriving DecidableEq

/-- `handleCompile`: on compile failure it returns early — without
calling `cleanupTempDir`; only the success path stores the binary and
cleans the sandbox temp directory. -/
def handleCompile (env : CompileEnv) :
    Except String CompileTaskResult × List SbxCall :=
  match env.sourceCache with
  | none => (.error "Source code cache not found or expired", [])
  | some _ =>
    let compileResult := env.compileRes
    if compileResult.success = false then
      (.ok { success := false,
             binaryCacheId := none,
             compileInfo := compileResult.compileInfo }, [.compile false])
    else
      (.ok { success := true,
             binaryCacheId := some env.newCacheId,
             compileInfo := compileResult.compileInfo },
        [.compile false, .cleanupTempDir compileResult.tempDir])

structure CompileCheckerTaskResult where
  success : Bool
  checkerCacheId : Option String
  compileInfo : String
deriving DecidableEq

/-- `handleCompileChecker`: same shape as `handleCompile` with
`isChecker = true` and a checker-type cache entry. -/
def handleCompileChecker (env : CompileEnv) :
    Except String CompileCheckerTaskResult × List SbxCall :=
  match env.sourceCache with
  | none => (.error "Checker source code cache not found or expired", [])
  | some _ =>
    let compileResult := env.compileRes
    if compileResult.success = false then
      (.ok { success := false,
             checkerCacheId := none,
             compileInfo := compileResult.compileInfo }, [.compile true])
    else
      (.ok { success := true,
             checkerCacheId := some env.newCacheId,
             compileInfo := compileResult.compileInfo },
        [.compile true, .cleanupTempDir compileResult.tempDir])

structure IVerdict where
  verdict : String
  score : Rat
  normalizedScore : Rat
  message : String
  reason : String
deriving DecidableEq

structure ProcResult where
  result : RunStats
  error : String
deriving DecidableEq

/-- Reply of `ChikoJudgeSandbox.runInteractive`. -/
structure InteractiveOutcome where
  verdict : IVerdict
  userResult : ProcResult
  interactorResult : ProcResult
deriving DecidableEq

/-- Environment of one `handleInteractive` run; `run` is the sandbox
reply as a function of whether `interactorInputPath` was set. -/
structure InteractiveEnv where
  userBinaryCache : Option CacheView
  interactorBinaryCache : Option CacheView
  inputCache : Option CacheView
  run : Bool → InteractiveOutcome

structure InteractiveResult where
  verdict : String
  score : Rat
  normalizedScore : Rat
  message : String
  reason : String
  userTime : Nat
  userMemory : Nat
  interactorTime : Nat
  interactorMemory : Nat
  userError : String
  interactorError : String
deriving DecidableEq

/-- The success record `handleInteractive` builds from the sandbox's
`runInteractive` reply. -/
def interactiveResultOf (r : InteractiveOutcome) : InteractiveResult :=
  { verdict := r.verdict.verdict,
    score := r.verdict.score,
    normalizedScore := r.verdict.normalizedScore,
    message := r.verdict.message,
    reason := r.verdict.reason,
    userTime := r.userResult.result.time,
    userMemory := r.userResult.result.memory,
    interactorTime := r.interactorResult.result.time,
    interactorMemory := r.interactorResult.result.memory,
    userError := r.userResult.error,
    interactorError := r.interactorResult.error }

/-- `handleInteractive`: the two binary handles are required (missing →
throw), but the optional `inputCacheId` is resolved non-fatally: if the
lookup fails the interaction simply runs without an interactor input
file. -/
def handleInteractive (env : InteractiveEnv) (inputCacheId : Option String) :
    Except String InteractiveResult × List SbxCall :=
  match env.userBinaryCache with
  | none => (.error "User binary cache not found or expired", [])
  | some _ =>
  match env.interactorBinaryCache with
  | none => (.error "Interactor binary cache not found or expired", [])
  | some _ =>
    let hasInput :=
      match inputCacheId with
      | some _ => env.inputCache.isSome
      | none => false
    (.ok (interactiveResultOf (env.run hasInput)), [.runInteractive hasInput])

/-- C2: with all three artifact handles live, a sandbox run result other
than (status 1, code 0) is classified before any checker involvement —
status 2 ↦ time-limit-exceeded, status 3 ↦ memory-limit-exceeded,
anything else (including status 1 with a non-zero code) ↦
runtime-error — with no checker call and no `checkerMessage` in the
returned record; the checker phase runs only when status = 1 and
code = 0. -/
theorem C2_run_classification (env : JudgeEnv) (checkerName : String)
    (b i o : CacheView) (hb : env.binaryCache = some b)
    (hi : env.inputCache = some i) (ho : env.outputCache = some o) :
    (env.run.result.status ≠ 1 ∨ env.run.result.code ≠ 0 →
      handleJudge env checkerName =
        (.ok { status :=
                 if env.run.result.status = 2 then "time-limit-exceeded"
                 else if env.run.result.status = 3 then "memory-limit-exceeded"
                 else "runtime-error",
               score := none,
               normalizedScore := none,
               time := env.run.result.time,
               memory := env.run.result.memory,
               output := env.run.output,
               error := some env.run.error,
               checkerMessage := none }, [SbxCall.runProgram])) ∧
    (env.run.result.status = 1 → env.run.result.code = 0 →
      ∀ p evs, getCheckerPath env checkerName = (.ok p, evs) →
        SbxCall.runChecker (isTestlibChecker checkerName) ∈
          (handleJudge env checkerName).2) := by
  constructor
  · intro habn
    rw [handleJudge, hb, hi, ho]
    dsimp only
    rw [if_pos habn]
  · intro h1 h2 p evs hgc
    rw [handleJudge, hb, hi, ho]
    dsimp only
    rw [if_neg (by simp [h1, h2]), hgc]
    simp

/-- A sample live cache view for the handler witnesses. -/
def sampleView : CacheView := ⟨"c", "binary", ("binary", "c"), 0, 300000⟩

/-- A judge environment whose program run timed out (status 2). -/
def judgeEnvTLE : JudgeEnv :=
  { binaryCache := some sampleView,
    inputCache := some sampleView,
    outputCache := some sampleView,
    checkerCache := fun _ => none,
    compileCheckerPath := fun n => ("builtin", n),
    run := ⟨⟨2, 0, 1000, 64⟩, "", "killed"⟩,
    check := ⟨0, 0, ""⟩ }

/-- Witness for C2: a status-2 run is reported as time-limit-exceeded
with no checker call and no checkerMessage. -/
theorem C2_run_classification_witness :
    handleJudge judgeEnvTLE "ncmp" =
      (.ok { status := "time-limit-exceeded",
             score := none,
             normalizedScore := none,
             time := 1000,
             memory := 64,
             output := "",
             error := some "killed",
             checkerMessage := none }, [SbxCall.runProgram]) :=
  ((C2_run_classification judgeEnvTLE "ncmp" sampleView sampleView sampleView
    rfl rfl rfl).1 (Or.inl (by decide))).trans rfl

/-- C3: with all three handles live and a clean program exit (status 1,
code 0) and a resolvable checker, the verdict is determined solely by
the checker's normalizedScore (≥ 1 accepted, in (0,1) partial-accepted,
≤ 0 wrong-answer) and the record carries status, score,
normalizedScore, time, memory, output and checkerMessage. -/
theorem C3_checker_verdict (env : JudgeEnv) (checkerName : String)
    (b i o : CacheView) (hb : env.binaryCache = some b)
    (hi : env.inputCache = some i) (ho : env.outputCache = some o)
    (h1 : env.run.result.status = 1) (h2 : env.run.result.code = 0)
    (p : String × String) (evs : List SbxCall)
    (hgc : getCheckerPath env checkerName = (.ok p, evs)) :
    handleJudge env checkerName =
      (.ok { status :=
               if env.check.normalizedScore ≥ 1 then "accepted"
               else if env.check.normalizedScore > 0 then "partial-accepted"
               else "wrong-answer",
             score := some env.check.score,
             normalizedScore := some env.check.normalizedScore,
             time := env.run.result.time,
             memory := env.run.result.memory,
             output := env.run.output,
             error := none,
             checkerMessage := some env.check.message },
        SbxCall.runProgram :: evs ++
          [SbxCall.runChecker (isTestlibChecker checkerName)]) := by
  rw [handleJudge, hb, hi, ho]
  dsimp only
  rw [if_neg (by simp [h1, h2]), hgc]

/-- A judge environment whose program exited cleanly and whose checker
reported full score. -/
def judgeEnvAC : JudgeEnv :=
  { binaryCache := some sampleView,
    inputCache := some sampleView,
    outputCache := some sampleView,
    checkerCache := fun _ => none,
    compileCheckerPath := fun n => ("builtin", n),
    run := ⟨⟨1, 0, 500, 32⟩, "3", ""⟩,
    check := ⟨100, 1, "ok"⟩ }

/-- Witness for C3: normalizedScore 1 yields an accepted record with all
seven fields. -/
theorem C3_checker_verdict_witness :
    handleJudge judgeEnvAC "ncmp" =
      (.ok { status := "accepted",
             score := some 100,
             normalizedScore := some 1,
             time := 500,
             memory := 32,
             output := "3",
             error := none,
             checkerMessage := some "ok" },
        [SbxCall.runProgram, SbxCall.compileChecker "ncmp",
          SbxCall.runChecker true]) :=
  (C3_checker_verdict judgeEnvAC "ncmp" sampleView sampleView sampleView
    rfl rfl rfl rfl rfl ("builtin", "ncmp") [SbxCall.compileChecker "ncmp"]
    rfl).trans rfl

/-- C6 (amended): a missing or expired required handle — judge's binary,
input or output, interactive's user or interactor binary — makes the
handler throw an error naming the cache as "not found or expired", and
`executeTask` turns that throw into status failed with the message as
the task's error and no result written; the optional `inputCacheId` of
an interactive task is the exception: when its lookup fails the handler
does not raise but silently runs the interaction without an interactor
input file. -/
theorem C6_missing_handle_failure :
    (∀ (env : JudgeEnv) (cn : String), env.binaryCache = none →
      handleJudge env cn = (.error "Binary cache not found or expired", [])) ∧
    (∀ (env : JudgeEnv) (cn : String) (b : CacheView),
      env.binaryCache = some b → env.inputCache = none →
      handleJudge env cn = (.error "Input cache not found or expired", [])) ∧
    (∀ (env : JudgeEnv) (cn : String) (b i : CacheView),
      env.binaryCache = some b → env.inputCache = some i →
      env.outputCache = none →
      handleJudge env cn = (.error "Output cache not found or expired", [])) ∧
    (∀ (env : InteractiveEnv) (cid : Option String),
      env.userBinaryCache = none →
      handleInteractive env cid =
        (.error "User binary cache not found or expired", [])) ∧
    (∀ (env : InteractiveEnv) (cid : Option String) (u : CacheView),
      env.userBinaryCache = some u → env.interactorBinaryCache = none →
      handleInteractive env cid =
        (.error "Interactor binary cache not found or expired", [])) ∧
    (∀ {δ ρ : Type} (msg : String) (t : Task δ ρ) (now : Int)
      (h : δ → Except String ρ), h t.data = .error msg →
      (executeTask (some h) t now).status = TaskStatus.FAILED ∧
        (executeTask (some h) t now).error = some msg ∧
        (executeTask (some h) t now).result = t.result) ∧
    (∀ (env : InteractiveEnv) (cid : String) (u i : CacheView),
      env.userBinaryCache = some u → env.interactorBinaryCache = some i →
      env.inputCache = none →
      handleInteractive env (some cid) =
        (.ok (interactiveResultOf (env.run false)),
          [SbxCall.runInteractive false])) := by
  refine ⟨?_, ?_, ?_, ?_, ?_, ?_, ?_⟩
  · intro env cn h
    rw [handleJudge, h]
  · intro env cn b hb h
    rw [handleJudge, hb, h]
  · intro env cn b i hb hi h
    rw [handleJudge, hb, hi, h]
  · intro env cid h
    rw [handleInteractive.eq_def, h]
  · intro env cid u hu h
    rw [handleInteractive.eq_def, hu, h]
  · intro δ ρ msg t now h hh
    rw [executeTask, hh]
    exact ⟨rfl, rfl, rfl⟩
  · intro env cid u i hu hi hin
    rw [handleInteractive.eq_def, hu, hi, hin]
    rfl

/-- An interactive environment whose optional input handle is gone. -/
def interEnvNoInput : InteractiveEnv :=
  { userBinaryCache := some sampleView,
    interactorBinaryCache := some sampleView,
    inputCache := none,
    run := fun _ => ⟨⟨"accepted", 100, 1, "ok", "solved"⟩,
      ⟨⟨1, 0, 10, 100⟩, ""⟩, ⟨⟨1, 0, 5, 50⟩, ""⟩⟩ }

/-- C6 counterexample: an interactive task whose `inputCacheId` handle
is missing at execution time does not fail — the handler returns a
normal result (the interaction just runs without an input file),
contradicting the claim that it raises and the task becomes failed with
no result. -/
theorem C6_counterexample :
    (handleInteractive interEnvNoInput (some "gone")).1 =
      .ok { verdict := "accepted", score := 100, normalizedScore := 1,
            message := "ok", reason := "solved", userTime := 10,
            userMemory := 100, interactorTime := 5, interactorMemory := 50,
            userError := "", interactorError := "" } := rfl

/-- Witness for C6 (amended): a judge environment whose binary handle is
gone throws the binary message. -/
theorem C6_missing_handle_failure_witness :
    handleJudge
        { binaryCache := none, inputCache := some sampleView,
          outputCache := some sampleView, checkerCache := fun _ => none,
          compileCheckerPath := fun n => ("builtin", n),
          run := ⟨⟨1, 0, 0, 0⟩, "", ""⟩, check := ⟨0, 0, ""⟩ } "ncmp" =
      (.error "Binary cache not found or expired", []) :=
  C6_missing_handle_failure.1 _ "ncmp" rfl

/-- C7 (amended): the compile and compile-checker handlers call the
sandbox's `cleanupTempDir` on the success path only: when the sandbox
reports `success = false` the handler returns the compile-failure
result without any `cleanupTempDir` call. -/
theorem C7_cleanup_on_success_only :
    (∀ (env : CompileEnv) (v : CacheView), env.sourceCache = some v →
      (env.compileRes.success = false →
        handleCompile env =
          (.ok { success := false, binaryCacheId := none,
                 compileInfo := env.compileRes.compileInfo },
            [SbxCall.compile false])) ∧
      (env.compileRes.success = true →
        handleCompile env =
          (.ok { success := true, binaryCacheId := some env.newCacheId,
                 compileInfo := env.compileRes.compileInfo },
            [SbxCall.compile false,
              SbxCall.cleanupTempDir env.compileRes.tempDir]))) ∧
    (∀ (env : CompileEnv) (v : CacheView), env.sourceCache = some v →
      (env.compileRes.success = false →
        handleCompileChecker env =
          (.ok { success := false, checkerCacheId := none,
                 compileInfo := env.compileRes.compileInfo },
            [SbxCall.compile true])) ∧
      (env.compileRes.success = true →
        handleCompileChecker env =
          (.ok { success := true, checkerCacheId := some env.newCacheId,
                 compileInfo := env.compileRes.compileInfo },
            [SbxCall.compile true,
              SbxCall.cleanupTempDir env.compileRes.tempDir]))) ∧
    (∀ (env : CompileEnv) (v : CacheView), env.sourceCache = some v →
      ((SbxCall.cleanupTempDir env.compileRes.tempDir ∈
          (handleCompile env).2) ↔ env.compileRes.success = true) ∧
      ((SbxCall.cleanupTempDir env.compileRes.tempDir ∈
          (handleCompileChecker env).2) ↔ env.compileRes.success = true)) := by
  have hc : ∀ (env : CompileEnv) (v : CacheView), env.sourceCache = some v →
      (env.compileRes.success = false →
        handleCompile env =
          (.ok { success := false, binaryCacheId := none,
                 compileInfo := env.compileRes.compileInfo },
            [SbxCall.compile false])) ∧
      (env.compileRes.success = true →
        handleCompile env =
          (.ok { success := true, binaryCacheId := some env.newCacheId,
                 compileInfo := env.compileRes.compileInfo },
            [SbxCall.compile false,
              SbxCall.cleanupTempDir env.compileRes.tempDir])) := by
    intro env v hs
    rw [handleCompile, hs]
    dsimp only
    constructor
    · intro hf
      rw [if_pos hf]
    · intro ht
      rw [if_neg (by simp [ht])]
  have hcc : ∀ (env : CompileEnv) (v : CacheView), env.sourceCache = some v →
      (env.compileRes.success = false →
        handleCompileChecker env =
          (.ok { success := false, checkerCacheId := none,
                 compileInfo := env.compileRes.compileInfo },
            [SbxCall.compile true])) ∧
      (env.compileRes.success = true →
        handleCompileChecker env =
          (.ok { success := true, checkerCacheId := some env.newCacheId,
                 compileInfo := env.compileRes.compileInfo },
            [SbxCall.compile true,
              SbxCall.cleanupTempDir env.compileRes.tempDir])) := by
    intro env v hs
    rw [handleCompileChecker, hs]
    dsimp only
    constructor
    · intro hf
      rw [if_pos hf]
    · intro ht
      rw [if_neg (by simp [ht])]
  refine ⟨hc, hcc, ?_⟩
  intro env v hs
  constructor
  · cases hsu : env.compileRes.success with
    | false =>
      rw [(hc env v hs).1 hsu]
      simp
    | true =>
      rw [(hc env v hs).2 hsu]
      simp
  · cases hsu : env.compileRes.success with
    | false =>
      rw [(hcc env v hs).1 hsu]
      simp
    | true =>
      rw [(hcc env v hs).2 hsu]
      simp

/-- A compile environment whose sandbox compile failed. -/
def compileFailEnv : CompileEnv :=
  { sourceCache := some sampleView,
    compileRes := ⟨false, "syntax error", ("tmp", "prog"), "/tmp/x"⟩,
    newCacheId := "c" }

/-- C7 counterexample: on the `success = false` path neither compile
handler calls `cleanupTempDir` — the claim that cleanup happens on
every exit path fails on the compile-failure return. -/
theorem C7_counterexample :
    (handleCompile compileFailEnv).2 = [SbxCall.compile false] ∧
    SbxCall.cleanupTempDir "/tmp/x" ∉ (handleCompile compileFailEnv).2 ∧
    (handleCompileChecker compileFailEnv).2 = [SbxCall.compile true] ∧
    SbxCall.cleanupTempDir "/tmp/x" ∉ (handleCompileChecker compileFailEnv).2 := by
  decide

/-- A compile environment whose sandbox compile succeeded. -/
def compileOkEnv : CompileEnv :=
  { sourceCache := some sampleView,
    compileRes := ⟨true, "", ("tmp", "prog"), "/tmp/y"⟩,
    newCacheId := "c" }

/-- Witness for C7 (amended): the success path stores the binary and
cleans the sandbox temp directory. -/
theorem C7_cleanup_on_success_only_witness :
    handleCompile compileOkEnv =
      (.ok { success := true, binaryCacheId := some "c", compileInfo := "" },
        [SbxCall.compile false, SbxCall.cleanupTempDir "/tmp/y"]) :=
  (C7_cleanup_on_success_only.1 compileOkEnv sampleView rfl).2 rfl

/-- The 8-4-4-4-12 hex shape of the UUID regex, stated directly from the
spec's words (five all-hex groups of lengths 8, 4, 4, 4, 12 joined by
dashes). -/
def uuidShape (cs : List Char) : Prop :=
  ∃ a b c d e : List Char,
    a.length = 8 ∧ b.length = 4 ∧ c.length = 4 ∧ d.length = 4 ∧
    e.length = 12 ∧
    (∀ x ∈ a, isHexDigit x = true) ∧ (∀ x ∈ b, isHexDigit x = true) ∧
    (∀ x ∈ c, isHexDigit x = true) ∧ (∀ x ∈ d, isHexDigit x = true) ∧
    (∀ x ∈ e, isHexDigit x = true) ∧
    cs = a ++ '-' :: (b ++ '-' :: (c ++ '-' :: (d ++ '-' :: e)))

lemma dropHexN_some_iff (n : Nat) (cs rest : List Char) :
    dropHexN n cs = some rest ↔
      ∃ p : List Char, p.length = n ∧ (∀ x ∈ p, isHexDigit x = true) ∧
        cs = p ++ rest := by
  induction n generalizing cs with
  | zero =>
    constructor
    · intro h
      have h2 : cs = rest := by
        have h3 : some cs = some rest := h
        injection h3
      exact ⟨[], rfl, fun x hx => absurd hx (List.not_mem_nil x),
        by simp [h2]⟩
    · rintro ⟨p, hl, _, rfl⟩
      have hp : p = [] := List.length_eq_zero.mp hl
      subst hp
      rfl
  | succ n ih =>
    cases cs with
    | nil =>
      constructor
      · intro h; exact absurd h (by simp [dropHexN])
      · rintro ⟨p, hl, _, hc⟩
        cases p with
        | nil => simp at hl
        | cons a q => simp at hc
    | cons c cs' =>
      have hstep : dropHexN (n + 1) (c :: cs') =
          if isHexDigit c then dropHexN n cs' else none := rfl
      by_cases hc : isHexDigit c = true
      · rw [hstep, if_pos hc, ih]
        constructor
        · rintro ⟨p, hl, hx, rfl⟩
          refine ⟨c :: p, by simp [hl], ?_, rfl⟩
          intro x hx2
          rcases List.mem_cons.mp hx2 with h | h
          · rw [h]; exact hc
          · exact hx x h
        · rintro ⟨p, hl, hx, he⟩
          cases p with
          | nil => simp at hl
          | cons a q =>
            rw [List.cons_append] at he
            injection he with h1 h2
            subst h1
            exact ⟨q, by simpa using hl,
              fun x hx2 => hx x (List.mem_cons_of_mem _ hx2), h2⟩
      · rw [hstep, if_neg hc]
        constructor
        · intro h; exact absurd h (by simp)
        · rintro ⟨p, hl, hx, he⟩
          cases p with
          | nil => simp at hl
          | cons a q =>
            rw [List.cons_append] at he
            injection he with h1 h2
            subst h1
            exact absurd (hx c (List.mem_cons_self c q)) hc

lemma expectDash_some_iff (cs r : List Char) :
    expectDash cs = some r ↔ cs = '-' :: r := by
  cases cs with
  | nil => simp [expectDash]
  | cons c cs' =>
    by_cases hc : c = '-'
    · subst hc; simp [expectDash]
    · simp [expectDash, hc]

/-- The UUID regex test agrees with the spec's 8-4-4-4-12 description. -/
lemma isCustomChecker_iff (cn : String) :
    isCustomChecker cn = true ↔ uuidShape cn.data := by
  unfold isCustomChecker
  rw [beq_iff_eq]
  unfold uuidRest
  constructor
  · intro h
    simp only [Option.bind_eq_bind, Option.bind_eq_some] at h
    obtain ⟨u8, ⟨u7, ⟨u6, ⟨u5, ⟨u4, ⟨u3, ⟨u2, ⟨u1, h1, h2⟩, h3⟩, h4⟩,
      h5⟩, h6⟩, h7⟩, h8⟩, h9⟩ := h
    obtain ⟨a, ha, hax, hcs0⟩ := (dropHexN_some_iff 8 _ _).mp h1
    have e1 := (expectDash_some_iff _ _).mp h2
    obtain ⟨b, hb, hbx, e2⟩ := (dropHexN_some_iff 4 _ _).mp h3
    have e3 := (expectDash_some_iff _ _).mp h4
    obtain ⟨c, hc, hcx, e4⟩ := (dropHexN_some_iff 4 _ _).mp h5
    have e5 := (expectDash_some_iff _ _).mp h6
    obtain ⟨d, hd, hdx, e6⟩ := (dropHexN_some_iff 4 _ _).mp h7
    have e7 := (expectDash_some_iff _ _).mp h8
    obtain ⟨e, he, hex, e8⟩ := (dropHexN_some_iff 12 _ _).mp h9
    refine ⟨a, b, c, d, e, ha, hb, hc, hd, he, hax, hbx, hcx, hdx, hex, ?_⟩
    rw [hcs0, e1, e2, e3, e4, e5, e6, e7, e8]
    simp
  · rintro ⟨a, b, c, d, e, ha, hb, hc, hd, he, hax, hbx, hcx, hdx, hex, hcs⟩
    rw [hcs]
    have h1 : dropHexN 8
        (a ++ '-' :: (b ++ '-' :: (c ++ '-' :: (d ++ '-' :: e)))) =
        some ('-' :: (b ++ '-' :: (c ++ '-' :: (d ++ '-' :: e)))) :=
      (dropHexN_some_iff 8 _ _).mpr ⟨a, ha, hax, rfl⟩
    have h3 : dropHexN 4 (b ++ '-' :: (c ++ '-' :: (d ++ '-' :: e))) =
        some ('-' :: (c ++ '-' :: (d ++ '-' :: e))) :=
      (dropHexN_some_iff 4 _ _).mpr ⟨b, hb, hbx, rfl⟩
    have h5 : dropHexN 4 (c ++ '-' :: (d ++ '-' :: e)) =
        some ('-' :: (d ++ '-' :: e)) :=
      (dropHexN_some_iff 4 _ _).mpr ⟨c, hc, hcx, rfl⟩
    have h7 : dropHexN 4 (d ++ '-' :: e) = some ('-' :: e) :=
      (dropHexN_some_iff 4 _ _).mpr ⟨d, hd, hdx, rfl⟩
    have h9 : dropHexN 12 e = some [] :=
      (dropHexN_some_iff 12 _ _).mpr ⟨e, he, hex, by simp⟩
    simp [h1, h3, h5, h7, h9, expectDash]

/-- C8: checker-name dispatch. A name matches the UUID regex exactly when
it has the 8-4-4-4-12 case-insensitive hex shape; a matching name is
resolved through the checker cache (error when the handle is missing or
expired, the cached executable path with no sandbox call otherwise) and
is always treated as testlib-style; a non-matching name goes to the
sandbox's `compileChecker` and is testlib-style exactly when it is one of
the 19 built-in names. -/
theorem C8_checker_dispatch (env : JudgeEnv) (cn : String) :
    (isCustomChecker cn = true ↔ uuidShape cn.data) ∧
    (isCustomChecker cn = true →
      isTestlibChecker cn = true ∧
      (env.checkerCache cn = none →
        getCheckerPath env cn =
          (.error ("Custom checker cache not found or expired: " ++ cn),
            [])) ∧
      (∀ v, env.checkerCache cn = some v →
        getCheckerPath env cn = (.ok v.filePath, []))) ∧
    (isCustomChecker cn = false →
      getCheckerPath env cn =
        (.ok (env.compileCheckerPath cn), [SbxCall.compileChecker cn]) ∧
      (isTestlibChecker cn = true ↔ cn ∈ TESTLIB_CHECKERS)) := by
  refine ⟨isCustomChecker_iff cn, ?_, ?_⟩
  · intro hcu
    refine ⟨by rw [isTestlibChecker, if_pos hcu], ?_, ?_⟩
    · intro hnone
      rw [getCheckerPath, if_pos hcu, hnone]
    · intro v hv
      rw [getCheckerPath, if_pos hcu, hv]
  · intro hcu
    constructor
    · rw [getCheckerPath, if_neg (by simp [hcu])]
    · rw [isTestlibChecker, if_neg (by simp [hcu])]
      simp

/-- A judge environment with an empty checker cache, for the checker
dispatch witness. -/
def judgeEnvC8 : JudgeEnv :=
  { binaryCache := none, inputCache := none, outputCache := none,
    checkerCache := fun _ => none,
    compileCheckerPath := fun n => ("builtin", n),
    run := ⟨⟨1, 0, 0, 0⟩, "", ""⟩, check := ⟨0, 0, ""⟩ }

/-- Witness for C8: a UUID-shaped name is testlib-style and errors on a
cache miss; `ncmp` goes to `compileChecker` and is testlib-style. -/
theorem C8_checker_dispatch_witness :
    isTestlibChecker "aabbccdd-0011-2233-4455-66778899aabb" = true ∧
    getCheckerPath judgeEnvC8 "aabbccdd-0011-2233-4455-66778899aabb" =
      (.error ("Custom checker cache not found or expired: " ++
        "aabbccdd-0011-2233-4455-66778899aabb"), []) ∧
    getCheckerPath judgeEnvC8 "ncmp" =
      (.ok ("builtin", "ncmp"), [SbxCall.compileChecker "ncmp"]) ∧
    isTestlibChecker "ncmp" = true :=
  ⟨((C8_checker_dispatch judgeEnvC8 _).2.1 (by decide)).1,
   ((C8_checker_dispatch judgeEnvC8 _).2.1 (by decide)).2.1 rfl,
   ((C8_checker_dispatch judgeEnvC8 "ncmp").2.2 (by decide)).1,
   ((C8_checker_dispatch judgeEnvC8 "ncmp").2.2 (by decide)).2.mpr
     (by decide)⟩

end Chiko
